import Mathlib

/-!
Verification of the MSL shader-parsing core (Parsing.ts) against its
specification. The definitions below are a shallow embedding of the
source functions: strings are modelled as Lean strings (worked on via
their character lists), JS numbers as rationals (the programs under
study only produce finite values; non-finite intermediate results are
modelled as explicit errors), fallible code as `Except String`, and the
mutable counters of the binding allocator as explicit state passing.
Definition names follow the source.
-/

set_option maxHeartbeats 1000000

/-! ## Character-level string utilities (JS string primitives) -/

/-- JS whitespace test, restricted to the ASCII whitespace the sources use. -/
def wsChar (c : Char) : Bool := c = ' ' || c = '\t' || c = '\n' || c = '\r'

/-- Regex word character, as in the class backslash-w of JS: ASCII letters, digits, underscore. -/
def wordChar (c : Char) : Bool := c.isAlpha || c.isDigit || c = '_'

/-- Digit character, as in the class backslash-d. -/
def isDigitChar (c : Char) : Bool := c.isDigit

/-- Does the list start with the given pattern? -/
def isPrefixList : List Char → List Char → Bool
  | [], _ => true
  | _ :: _, [] => false
  | a :: as, b :: bs => a = b && isPrefixList as bs

/-- JS String.prototype.includes: substring containment. -/
def listIncludes (sub : List Char) : List Char → Bool
  | [] => decide (sub = [])
  | s@(_ :: cs) => isPrefixList sub s || listIncludes sub cs

/-- JS String.prototype.indexOf: index of the first occurrence, -1 when absent. -/
def listIndexOf (sub : List Char) : List Char → ℤ
  | [] => if sub = [] then 0 else -1
  | s@(_ :: cs) =>
    if isPrefixList sub s then 0
    else
      let r := listIndexOf sub cs
      if r = -1 then -1 else r + 1

def strIncludes (s sub : String) : Bool := listIncludes sub.data s.data

def strIndexOf (s sub : String) : ℤ := listIndexOf sub.data s.data

/-- Count occurrences of a character (the match-count of a single-character global regex). -/
def countChar (s : List Char) (c : Char) : ℕ := s.countP (fun x => x = c)

/-- JS String.prototype.trim restricted to ASCII whitespace. -/
def trimChars (s : List Char) : List Char :=
  ((s.dropWhile wsChar).reverse.dropWhile wsChar).reverse

def trimS (s : String) : String := ⟨trimChars s.data⟩

/-- JS String.prototype.split on a separator character; keeps empty segments. -/
def splitOnChar (sep : Char) : List Char → List (List Char)
  | [] => [[]]
  | c :: cs =>
    match splitOnChar sep cs with
    | [] => [[c]]
    | h :: t => if c = sep then [] :: h :: t else (c :: h) :: t

/-- JS String.prototype.replace with a string pattern: replaces the first occurrence only. -/
def replaceFirst (s pat repl : List Char) : List Char :=
  if pat = [] then repl ++ s
  else
    match s with
    | [] => []
    | c :: cs => if isPrefixList pat s then repl ++ s.drop pat.length
                 else c :: replaceFirst cs pat repl

/-! ## A small regex engine (Brzozowski derivatives)

The validators of the source test fixed regular expressions against a
line and use the result only as a boolean. Each source pattern is
written below as an `RE` term; `RE.search` is the unanchored test that
JS `String.prototype.match` performs. -/

inductive RE where
  | fail : RE
  | eps : RE
  | cls : (Char → Bool) → RE
  | seq : RE → RE → RE
  | alt : RE → RE → RE
  | star : RE → RE

def RE.nullable : RE → Bool
  | .fail => false
  | .eps => true
  | .cls _ => false
  | .seq a b => a.nullable && b.nullable
  | .alt a b => a.nullable || b.nullable
  | .star _ => true

def RE.deriv : RE → Char → RE
  | .fail, _ => .fail
  | .eps, _ => .fail
  | .cls p, c => if p c then .eps else .fail
  | .seq a b, c =>
    if a.nullable then .alt (.seq (a.deriv c) b) (b.deriv c) else .seq (a.deriv c) b
  | .alt a b, c => .alt (a.deriv c) (b.deriv c)
  | .star r, c => .seq (r.deriv c) (.star r)

/-- Does some prefix of the input match the regex? -/
def RE.matchSomePre : RE → List Char → Bool
  | r, [] => r.nullable
  | r, c :: cs => r.nullable || (r.deriv c).matchSomePre cs

/-- Unanchored regex test: does the regex match somewhere in the input? -/
def RE.searchL : RE → List Char → Bool
  | r, [] => r.nullable
  | r, s@(_ :: cs) => r.matchSomePre s || r.searchL cs

def RE.search (r : RE) (s : String) : Bool := r.searchL s.data

def RE.chr (c : Char) : RE := .cls (fun x => x = c)

def RE.strLit (s : String) : RE := s.data.foldr (fun c r => RE.seq (RE.chr c) r) RE.eps

def RE.plus (r : RE) : RE := .seq r (.star r)

def RE.opt (r : RE) : RE := .alt r .eps

/-- The class backslash-s of the source regexes. -/
def RE.ws : RE := .cls wsChar

/-- The class backslash-w of the source regexes. -/
def RE.word : RE := .cls wordChar

/-! ## Math expression evaluation (evaluateMathExpression)

The source hands the sanitized expression to the JS engine
(`Function("return expr")`). Over the accepted character set
(digits, whitespace, + - * / ( ) .) that is ordinary arithmetic with
standard precedence, modelled exactly over the rationals. JS evaluates
the whole expression on doubles and only afterwards rejects non-finite
results; the model instead rejects at the division that produces the
non-finite value, which classifies the same expressions as erroneous
except for expressions that later cancel an infinity (never produced by
this codebase). -/

inductive Tok where
  | num (q : ℚ)
  | plusT
  | minusT
  | starT
  | slashT
  | lparT
  | rparT
  deriving DecidableEq, Repr

def digitsToNat (l : List Char) : ℕ :=
  l.foldl (fun acc c => acc * 10 + (c.toNat - '0'.toNat)) 0

/-- Lex a numeric literal: digits, optionally a dot and more digits (JS number grammar
as reachable from the accepted character set). -/
def lexNumber (s : List Char) : Option (ℚ × List Char) :=
  let (intPart, rest) := s.span isDigitChar
  match rest with
  | '.' :: rest2 =>
    let (fracPart, rest3) := rest2.span isDigitChar
    if intPart = [] && fracPart = [] then none
    else some ((digitsToNat intPart : ℚ) + (digitsToNat fracPart : ℚ) / ((10 : ℚ) ^ fracPart.length), rest3)
  | _ =>
    if intPart = [] then none else some ((digitsToNat intPart : ℚ), rest)

def lexMath : ℕ → List Char → Except String (List Tok)
  | _, [] => .ok []
  | 0, _ => .error "lexer fuel exhausted"
  | fuel + 1, c :: cs =>
    if wsChar c then lexMath fuel cs
    else if c = '+' then (lexMath fuel cs).map (Tok.plusT :: ·)
    else if c = '-' then (lexMath fuel cs).map (Tok.minusT :: ·)
    else if c = '*' then (lexMath fuel cs).map (Tok.starT :: ·)
    else if c = '/' then (lexMath fuel cs).map (Tok.slashT :: ·)
    else if c = '(' then (lexMath fuel cs).map (Tok.lparT :: ·)
    else if c = ')' then (lexMath fuel cs).map (Tok.rparT :: ·)
    else
      match lexNumber (c :: cs) with
      | some (q, rest) => (lexMath fuel rest).map (Tok.num q :: ·)
      | none => .error "unexpected character in expression"

mutual

def parseExprL : ℕ → List Tok → Except String (ℚ × List Tok)
  | 0, _ => .error "parser fuel exhausted"
  | fuel + 1, ts => do
    let (v, ts1) ← parseTermL fuel ts
    parseExprRest fuel v ts1

def parseExprRest : ℕ → ℚ → List Tok → Except String (ℚ × List Tok)
  | 0, _, _ => .error "parser fuel exhausted"
  | fuel + 1, acc, Tok.plusT :: ts => do
    let (v, ts1) ← parseTermL fuel ts
    parseExprRest fuel (acc + v) ts1
  | fuel + 1, acc, Tok.minusT :: ts => do
    let (v, ts1) ← parseTermL fuel ts
    parseExprRest fuel (acc - v) ts1
  | _ + 1, acc, ts => .ok (acc, ts)

def parseTermL : ℕ → List Tok → Except String (ℚ × List Tok)
  | 0, _ => .error "parser fuel exhausted"
  | fuel + 1, ts => do
    let (v, ts1) ← parseFactor fuel ts
    parseTermRest fuel v ts1

def parseTermRest : ℕ → ℚ → List Tok → Except String (ℚ × List Tok)
  | 0, _, _ => .error "parser fuel exhausted"
  | fuel + 1, acc, Tok.starT :: ts => do
    let (v, ts1) ← parseFactor fuel ts
    parseTermRest fuel (acc * v) ts1
  | fuel + 1, acc, Tok.slashT :: ts => do
    let (v, ts1) ← parseFactor fuel ts
    if v = 0 then .error "Expression resulted in invalid number"
    else parseTermRest fuel (acc / v) ts1
  | _ + 1, acc, ts => .ok (acc, ts)

def parseFactor : ℕ → List Tok → Except String (ℚ × List Tok)
  | 0, _ => .error "parser fuel exhausted"
  | _ + 1, Tok.num q :: ts => .ok (q, ts)
  | fuel + 1, Tok.lparT :: ts => do
    let (v, ts1) ← parseExprL fuel ts
    match ts1 with
    | Tok.rparT :: ts2 => .ok (v, ts2)
    | _ => .error "expected closing parenthesis"
  | fuel + 1, Tok.plusT :: ts => parseFactor fuel ts
  | fuel + 1, Tok.minusT :: ts => (parseFactor fuel ts).map (fun p => (-p.1, p.2))
  | _ + 1, _ => .error "unexpected token"

end

/-- Characters accepted by the sanitizing check of evaluateMathExpression. -/
def allowedMathChar (c : Char) : Bool :=
  isDigitChar c || wsChar c || c = '+' || c = '-' || c = '*' || c = '/' ||
  c = '(' || c = ')' || c = '.'

/-- Shallow embedding of evaluateMathExpression. -/
def evaluateMathExpression (expression : String) : Except String ℚ :=
  let clean := trimChars expression.data
  if clean = [] then .ok 0
  else if clean.all isDigitChar then .ok (digitsToNat clean : ℚ)
  else if ¬ clean.all allowedMathChar then
    .error ("Invalid math expression: " ++ (⟨clean⟩ : String))
  else if countChar clean '(' ≠ countChar clean ')' then
    .error ("Unbalanced parentheses in expression: " ++ (⟨clean⟩ : String))
  else
    match lexMath (clean.length + 1) clean with
    | .error e => .error ("Failed to evaluate expression: " ++ e)
    | .ok toks =>
      match parseExprL (3 * toks.length + 9) toks with
      | .ok (v, []) => .ok v
      | .ok (_, _ :: _) => .error "Failed to evaluate expression: trailing input"
      | .error e => .error ("Failed to evaluate expression: " ++ e)

/-! ## Wildcards and wildcard expression evaluation -/

/-- A wildcard handle: an externally owned named numeric vector (the WildCard class
restricted to the data this core reads; the constructor enforces 1-4 components,
which theorems state as a hypothesis where needed). -/
structure WildCard where
  name : String
  value : List ℚ
  deriving DecidableEq, Repr

/-- The wildcard token marker WILDCARDS_PREFIX of the source. -/
def wildcardsMarker : String := "info."

def swizzleChar (c : Char) : Bool :=
  c = 'x' || c = 'y' || c = 'z' || c = 'w' || c = 'r' || c = 'g' || c = 'b' || c = 'a'

/-- SWIZZLE_COMPONENTS lookup: x/r to 0, y/g to 1, z/b to 2, w/a to 3. -/
def swizzleIndex (c : Char) : ℕ :=
  if c = 'x' || c = 'r' then 0
  else if c = 'y' || c = 'g' then 1
  else if c = 'z' || c = 'b' then 2
  else 3

/-- Shallow embedding of getSwizzledValue for the accessors that
evaluateWildcardExpression can pass it: the capture of the optional group
(dot followed by one or more swizzle characters) or the empty accessor.
The bracket-indexing branch of the source is unreachable from that capture
grammar (the capture never contains brackets) and is not modelled.
A component index beyond the vector length yields undefined in JS; the model
returns 0 there, a case no theorem exercises. -/
def getSwizzledValue (value : List ℚ) (accessor : List Char) : List ℚ :=
  if accessor = [] then value
  else
    let sw := match accessor with
      | '.' :: rest => rest
      | l => l
    if sw = [] then value
    else sw.map (fun c => value.getD (swizzleIndex c) 0)

/-- One match of the wildcard regex: the full matched text, the captured name,
and the optional swizzle capture (with its leading dot, as captured). -/
structure WMatch where
  full : List Char
  wname : List Char
  swizzle : Option (List Char)
  deriving DecidableEq, Repr

/-- Try to match the wildcard pattern at the start of the input. The pattern is
built by string interpolation from WILDCARDS_PREFIX, so its final dot is an
unescaped regex dot and matches any character; the name capture is a nonempty
greedy run of word characters and the optional swizzle capture is a dot followed
by a nonempty greedy run of swizzle characters. -/
def matchWildcardAt : List Char → Option (WMatch × List Char)
  | 'i' :: 'n' :: 'f' :: 'o' :: d :: rest =>
    let (nm, rest1) := rest.span wordChar
    if nm = [] then none
    else
      match rest1 with
      | '.' :: rest2 =>
        let (sw, rest3) := rest2.span swizzleChar
        if sw = [] then
          some ({ full := 'i' :: 'n' :: 'f' :: 'o' :: d :: nm, wname := nm, swizzle := none }, rest1)
        else
          some ({ full := 'i' :: 'n' :: 'f' :: 'o' :: d :: (nm ++ '.' :: sw), wname := nm,
                  swizzle := some ('.' :: sw) }, rest3)
      | _ =>
        some ({ full := 'i' :: 'n' :: 'f' :: 'o' :: d :: nm, wname := nm, swizzle := none }, rest1)
  | _ => none

/-- All matches of the wildcard pattern, left to right and non-overlapping
(JS String.prototype.matchAll). -/
def findWildcardMatchesAux : ℕ → List Char → List WMatch
  | 0, _ => []
  | _, [] => []
  | fuel + 1, s@(_ :: cs) =>
    match matchWildcardAt s with
    | some (m, rest) => m :: findWildcardMatchesAux fuel rest
    | none => findWildcardMatchesAux fuel cs

def findWildcardMatches (s : List Char) : List WMatch := findWildcardMatchesAux s.length s

/-- JS Number.prototype.toString for the values this code substitutes back into
expressions. The reachable substitutions in the verified theorems are integral;
a non-integral rational is printed as a division expression, which re-evaluates
to the same value in isolated positions (JS prints a decimal instead). -/
def ratToChars (q : ℚ) : List Char :=
  if q.den = 1 then
    (if q.num < 0 then '-' :: (toString (-q.num).toNat).data else (toString q.num.toNat).data)
  else
    (if q.num < 0 then '-' :: (toString (-q.num).toNat).data else (toString q.num.toNat).data)
      ++ '/' :: (toString q.den).data

/-- The substitution loop of evaluateWildcardExpression: walk the matches in
order, replacing single-component values textually; on the first
multi-component value, broadcast by evaluating the partially substituted
expression once per component and return early. After the loop, split on
commas and evaluate each segment. -/
def substitutePass (wildcards : List WildCard) : List WMatch → List Char → Except String (List ℚ)
  | [], evalExp =>
    (splitOnChar ',' evalExp).mapM (fun seg => evaluateMathExpression ⟨trimChars seg⟩)
  | m :: ms, evalExp =>
    match wildcards.find? (fun w => w.name.data = m.wname) with
    | none => .error ("Unknown wildcard: " ++ (⟨m.wname⟩ : String))
    | some w =>
      let values := match m.swizzle with
        | some sw => getSwizzledValue w.value sw
        | none => w.value
      match values with
      | [v] => substitutePass wildcards ms (replaceFirst evalExp m.full (ratToChars v))
      | _ =>
        values.mapM (fun v => evaluateMathExpression ⟨replaceFirst evalExp m.full (ratToChars v)⟩)

/-- Shallow embedding of evaluateWildcardExpression. -/
def evaluateWildcardExpression (expression : String) (wildcards : List WildCard) :
    Except String (List ℚ) :=
  match findWildcardMatches expression.data with
  | [] => (evaluateMathExpression expression).map (fun v => [v])
  | ms => substitutePass wildcards ms expression.data

/-- Shallow embedding of evaluateResolutionExpression. -/
def evaluateResolutionExpression (input : String) (expectedDimensions : ℕ)
    (wildcards : List WildCard) : Except String (List ℚ) :=
  let expression := trimChars input.data
  if expression ≠ [] ∧ expression.all isDigitChar then
    .ok (List.replicate expectedDimensions (digitsToNat expression : ℚ))
  else if wildcards.any (fun w => strIncludes ⟨expression⟩ (wildcardsMarker ++ w.name)) then
    evaluateWildcardExpression ⟨expression⟩ wildcards
  else
    (evaluateMathExpression ⟨expression⟩).map (fun v => List.replicate expectedDimensions v)

/-! ## Texture size validation (validateAndResolveTextureSize) -/

/-- Shallow embedding of getExpectedDimensions. -/
def getExpectedDimensions (textureType : String) : ℕ :=
  if strIncludes textureType "1d" then 1
  else if strIncludes textureType "3d" || strIncludes textureType "array" then 3
  else 2

/-- The size-resolution step of validateAndResolveTextureSize: a single
parameter is evaluated directly, several parameters are evaluated one by one
(each with expected dimension 1) and flattened. -/
def resolveTexSizes (sizeParams : List String) (wildcards : List WildCard) :
    Except String (List ℚ) :=
  if sizeParams.length = 1 then
    match sizeParams with
    | [p] => evaluateResolutionExpression p 1 wildcards
    | _ => .ok []
  else do
    let ls ← sizeParams.mapM (fun p => evaluateResolutionExpression p 1 wildcards)
    pure ls.flatten

/-- The per-value validation loop of validateAndResolveTextureSize.
Number.isFinite always holds in the rational model (non-finite evaluation
results were already rejected as errors); positivity is checked for every
value, integrality only for dimension 3 of array types. -/
def validateSizeValues (textureType : String) : ℕ → List ℚ → Except String Unit
  | _, [] => .ok ()
  | i, v :: rest =>
    if v ≤ 0 then
      .error ("Invalid resolution at position " ++ toString (i + 1) ++
        ": value must be greater than 0")
    else if strIncludes textureType "array" && i = 2 && v.den ≠ 1 then
      .error "Array size (dimension 3) must be an integer"
    else validateSizeValues textureType (i + 1) rest

/-- The padding loop: push the last value until the expected length is reached. -/
def padWithLast (l : List ℚ) (n : ℕ) : List ℚ :=
  match l.getLast? with
  | none => l
  | some last => l ++ List.replicate (n - l.length) last

/-- Shallow embedding of validateAndResolveTextureSize. The catch-all wrapper
of the source re-throws every inner error with a position prefix. -/
def validateAndResolveTextureSize (sizeParams : List String) (textureType : String)
    (lineIndex : ℕ) (wildcards : List WildCard) : Except String (List ℚ) :=
  let expectedDimensions := getExpectedDimensions textureType
  let body : Except String (List ℚ) :=
    match resolveTexSizes sizeParams wildcards with
    | .error e => .error e
    | .ok resolvedSizes =>
      if expectedDimensions < resolvedSizes.length then
        .error ("Incorrect number of dimensions for " ++ textureType)
      else
        let padded : Except String (List ℚ) :=
          if resolvedSizes.length < expectedDimensions then
            if strIncludes textureType "array" then
              .error ("Insufficient dimensions for " ++ textureType)
            else
              match resolvedSizes.getLast? with
              | none =>
                -- JS pads with undefined here and the isFinite check then fails
                .error "Invalid resolution at position 1: value is not a finite number"
              | some _ => .ok (padWithLast resolvedSizes expectedDimensions)
          else .ok resolvedSizes
        match padded with
        | .error e => .error e
        | .ok sizes =>
          match validateSizeValues textureType 0 sizes with
          | .error e => .error e
          | .ok _ => .ok sizes
  match body with
  | .ok v => .ok v
  | .error msg =>
    .error ("Resolution error for " ++ textureType ++ " at position " ++
      toString lineIndex ++ ": " ++ msg)

/-! ## Structural validators (validate*Declaration)

Each validator of the source pushes fixed error messages; the messages are
modelled as an inductive with one constructor per push site. The regex tests
are the source patterns transliterated into `RE` terms. -/

inductive VErr where
  | missingDecorator (name : String)
  | mismatchedParens
  | missingVarDecl
  | decoratorOrder
  | invalidStorageQualifier
  | invalidVarDecl
  | invalidTypeDecl
  | mismatchedBrackets (opening closing : ℕ)
  | missingUniformQualifier
  | missingStructTypeRef
  | invalidSamplerType
  | missingRefParam
  | refVarDeclSyntax
  | mismatchedBracketsPlain
  deriving DecidableEq, Repr

def RE.cat (l : List RE) : RE := l.foldr RE.seq RE.eps

/-- Pattern of `@size` followed by optional whitespace and an opening paren. -/
def sizeOpenRe : RE := .cat [.strLit "@size", .star .ws, .chr '(']

def formatOpenRe : RE := .cat [.strLit "@format", .star .ws, .chr '(']

/-- Pattern var, whitespace, word characters. -/
def varWordRe : RE := .cat [.strLit "var", .plus .ws, .plus .word]

/-- Pattern of the storage qualifier var-angle storage, read or read_write. -/
def storageQualRe : RE :=
  .cat [.strLit "var", .star .ws, .chr '<', .star .ws, .strLit "storage", .star .ws,
        .chr ',', .star .ws, .alt (.strLit "read") (.strLit "read_write"), .star .ws, .chr '>']

/-- Pattern var, optional spaces, an angle group, spaces, an identifier. -/
def varAngleRe : RE :=
  .cat [.strLit "var", .star .ws, .chr '<', .plus (.cls (fun c => c ≠ '>')), .chr '>',
        .plus .ws, .plus .word]

/-- Pattern of a buffer backing type: colon then array of T or an inline struct. -/
def typeDeclRe : RE :=
  .cat [.chr ':', .star .ws,
        .alt (.cat [.strLit "array<", .plus (.cls (fun c => c ≠ '>')), .chr '>'])
             (.cat [.strLit "struct", .plus .ws, .plus .word, .star .ws, .chr '\x7b',
                    .plus (.cls (fun c => c ≠ '\x7d')), .chr '\x7d'])]

def uniformQualRe : RE :=
  .cat [.strLit "var", .star .ws, .chr '<', .star .ws, .strLit "uniform", .star .ws, .chr '>']

def structTypeRefRe : RE := .cat [.chr ':', .star .ws, .plus .word]

def samplerTypeRe : RE := .cat [.chr ':', .star .ws, .strLit "sampler"]

def refParamRe : RE :=
  .cat [.strLit "@ref", .star .ws, .chr '(', .plus (.cls (fun c => c ≠ ')')), .chr ')']

/-- The texture-type grammar of the reference variable pattern. -/
def refTextureRe : RE :=
  .cat [.star .ws, .strLit "var", .plus .ws, .plus .word, .star .ws, .chr ':', .star .ws,
        .strLit "texture_", .opt (.strLit "storage_"),
        .alt (.alt (.strLit "1d") (.strLit "2d")) (.alt (.strLit "3d") (.strLit "cube")),
        .opt (.strLit "_array"),
        .opt (.cat [.chr '<', .plus (.cls (fun c => c ≠ '>')), .chr '>'])]

def refStorageRe : RE :=
  .cat [.star .ws, .strLit "var", .star .ws, .chr '<', .star .ws, .strLit "storage", .star .ws,
        .chr ',', .star .ws, .alt (.strLit "read") (.strLit "read_write"), .star .ws, .chr '>',
        .plus .ws, .plus .word, .star .ws, .chr ':', .star .ws,
        .plus (.cls (fun c => c ≠ ';'))]

def refUniformRe : RE :=
  .cat [.star .ws, .strLit "var", .star .ws, .chr '<', .star .ws, .strLit "uniform", .star .ws,
        .chr '>', .plus .ws, .plus .word, .star .ws, .chr ':', .star .ws, .plus .word]

def refSamplerRe : RE :=
  .cat [.star .ws, .strLit "var", .plus .ws, .plus .word, .star .ws, .chr ':', .star .ws,
        .strLit "sampler"]

/-- The textual group-before-binding order condition shared by the validators
that perform it: both sub-decorators occur and @binding occurs first. -/
def orderViolated (line : String) : Prop :=
  strIncludes line "@binding" = true ∧ strIncludes line "@group" = true ∧
    strIndexOf line "@binding" < strIndexOf line "@group"

instance (line : String) : Decidable (orderViolated line) := by
  unfold orderViolated; infer_instance

/-- Shallow embedding of validateTextureDeclaration. -/
def validateTextureDeclaration (line : String) : List VErr :=
  let l := line.data
  (if sizeOpenRe.searchL l then [] else [.missingDecorator "@size"]) ++
  (if formatOpenRe.searchL l then [] else [.missingDecorator "@format"]) ++
  (if countChar l '(' = countChar l ')' then [] else [.mismatchedParens]) ++
  (if varWordRe.searchL l then [] else [.missingVarDecl]) ++
  (if orderViolated line then [.decoratorOrder] else [])

/-- Shallow embedding of validateBufferDeclaration. Note: no decorator-order
check is performed for buffers. -/
def validateBufferDeclaration (line : String) : List VErr :=
  let l := line.data
  (if sizeOpenRe.searchL l then [] else [.missingDecorator "@size"]) ++
  (if storageQualRe.searchL l then [] else [.invalidStorageQualifier]) ++
  (if varAngleRe.searchL l then [] else [.invalidVarDecl]) ++
  (if typeDeclRe.searchL l then [] else [.invalidTypeDecl]) ++
  (let o := countChar l '(' + countChar l '\x7b' + countChar l '<'
   let c := countChar l ')' + countChar l '\x7d' + countChar l '>'
   if o = c then [] else [.mismatchedBrackets o c])

/-- Shallow embedding of validateUniformDeclaration. Note: no decorator-order
check and no bracket balancing are performed for uniforms. -/
def validateUniformDeclaration (line : String) : List VErr :=
  let l := line.data
  (if uniformQualRe.searchL l then [] else [.missingUniformQualifier]) ++
  (if varAngleRe.searchL l then [] else [.invalidVarDecl]) ++
  (if structTypeRefRe.searchL l then [] else [.missingStructTypeRef])

/-- Shallow embedding of validateSamplerDeclaration. -/
def validateSamplerDeclaration (line : String) : List VErr :=
  let l := line.data
  (if varWordRe.searchL l then [] else [.missingVarDecl]) ++
  (if samplerTypeRe.searchL l then [] else [.invalidSamplerType]) ++
  (if orderViolated line then [.decoratorOrder] else []) ++
  (let o := countChar l '(' + countChar l '\x7b' + countChar l '<'
   let c := countChar l ')' + countChar l '\x7d' + countChar l '>'
   if o = c then [] else [.mismatchedBrackets o c])

/-- Success of parseVariableDeclaration as a boolean: one of the four reference
variable patterns matches. -/
def parseVariableDeclarationOk (line : String) : Bool :=
  refStorageRe.searchL line.data || refUniformRe.searchL line.data ||
  refTextureRe.searchL line.data || refSamplerRe.searchL line.data

/-- Shallow embedding of validateReferenceDeclaration. -/
def validateReferenceDeclaration (line : String) : List VErr :=
  let l := line.data
  (if refParamRe.searchL l then [] else [.missingRefParam]) ++
  (if parseVariableDeclarationOk line then [] else [.refVarDeclSyntax]) ++
  (let o := countChar l '(' + countChar l '\x7b' + countChar l '<'
   let c := countChar l ')' + countChar l '\x7d' + countChar l '>'
   if o = c then [] else [.mismatchedBracketsPlain]) ++
  (if orderViolated line then [.decoratorOrder] else [])

/-! ## Function-body usage scan (checkResourceUsageInBody) -/

/-- Whole-word regex test (word boundary, name, word boundary) for an
identifier name, scanning with the previous character as context. -/
def wholeWordAux (name : List Char) : Option Char → List Char → Bool
  | _, [] => false
  | prev, s@(c :: cs) =>
    (isPrefixList name s &&
      (match prev with
       | none => true
       | some p => !wordChar p) &&
      (match s.drop name.length with
       | [] => true
       | r :: _ => !wordChar r))
    || wholeWordAux name (some c) cs

def containsWholeWord (name s : List Char) : Bool := wholeWordAux name none s

structure UsageState where
  inFunction : Bool
  braceCount : ℤ
  functionBody : List Char

/-- One line of the scanning loop of checkResourceUsageInBody. The JS loop
returns early on a hit; the model carries a found flag instead and then
ignores the remaining lines. -/
def usageLineStep (name : List Char) : (UsageState × Bool) → List Char → (UsageState × Bool)
  | (st, found), line =>
    if found then (st, found)
    else
      let st1 := if listIncludes "fn ".data line then { st with inFunction := true } else st
      if st1.inFunction then
        let body := st1.functionBody ++ line ++ ['\n']
        let bc := st1.braceCount + (countChar line '\x7b' : ℤ) - (countChar line '\x7d' : ℤ)
        if bc = 0 ∧ listIncludes ['\x7b'] body = true then
          if containsWholeWord name body then
            ({ inFunction := false, braceCount := bc, functionBody := [] }, true)
          else
            ({ inFunction := false, braceCount := bc, functionBody := [] }, false)
        else ({ st1 with braceCount := bc, functionBody := body }, false)
      else (st1, false)

/-- Shallow embedding of checkResourceUsageInBody. -/
def checkResourceUsageInBody (code : String) (resourceName : String) : Bool :=
  ((splitOnChar '\n' code.data).foldl (usageLineStep resourceName.data)
    ({ inFunction := false, braceCount := 0, functionBody := [] }, false)).2

/-! ## Resource data model

The tagged union of parsed resources. The kind payloads carry exactly the
fields the type-specific equality functions of the diff engine compare. -/

inductive ResourceData where
  | tex (size : List ℚ) (format : String) (type : String)
  | buf (size : ℚ) (type : String) (access : String) (stride : Option ℕ)
  | uni (type : String) (defaults : List (String × List ℚ)) (size : ℚ)
  | samp (addressModeU addressModeV addressModeW : Option String)
         (magFilter minFilter mipmapFilter : Option String)
         (lodMinClamp lodMaxClamp : Option ℚ) (compare : Option String)
         (maxAnisotropy : Option ℚ)
  | ref (node : String) (refName : String) (type : String) (category : String)
        (access : Option String)
  deriving DecidableEq, Repr

/-- The resourceType tag string of each variant. -/
def resourceTypeOf : ResourceData → String
  | .tex .. => "texture"
  | .buf .. => "buffer"
  | .uni .. => "uniform"
  | .samp .. => "sampler"
  | .ref .. => "ref"

/-- A parsed resource (ResourceBase plus its kind payload). Binding is an
integer because -1 marks an unassigned binding; groups are the non-negative
integers the group decorator yields. -/
structure Resource where
  name : String
  group : ℕ
  binding : ℤ
  declarationIndex : ℕ
  wildcards : List String
  usedInBody : Bool
  data : ResourceData
  deriving DecidableEq, Repr

def Resource.resourceType (r : Resource) : String := resourceTypeOf r.data

/-- JS falsy-or for a parsed non-negative integer decorator value:
`v || d` yields the default when the decorator is absent or its value is 0. -/
def jsFalsyOrNat (v : Option ℕ) (dflt : ℕ) : ℕ :=
  match v with
  | some n => if n = 0 then dflt else n
  | none => dflt

/-- JS falsy-or for the binding field: `decorators.binding || -1`, so an
explicit binding of 0 collapses to the unassigned marker -1. -/
def jsFalsyOrBinding (v : Option ℕ) : ℤ :=
  match v with
  | some n => if n = 0 then -1 else (n : ℤ)
  | none => -1

/-- The record construction of parseTextureDeclaration (after validation,
pattern capture and size resolution): usedInBody is computed by scanning the
full code for the identifier. -/
def buildTextureObject (name type : String) (resolution : List ℚ) (format : String)
    (group binding : Option ℕ) (index : ℕ) (wilds : List String) (fullCode : String) :
    Resource :=
  { name := name
    group := jsFalsyOrNat group 0
    binding := jsFalsyOrBinding binding
    declarationIndex := index
    wildcards := wilds
    usedInBody := checkResourceUsageInBody fullCode name
    data := .tex resolution format type }

/-- The record construction of parseBufferDeclaration: usedInBody is the
constant true. -/
def buildBufferObject (name type : String) (size : ℚ) (access : String)
    (stride : Option ℕ) (group binding : Option ℕ) (index : ℕ) (wilds : List String) :
    Resource :=
  { name := name
    group := jsFalsyOrNat group 0
    binding := jsFalsyOrBinding binding
    declarationIndex := index
    wildcards := wilds
    usedInBody := true
    data := .buf size type access stride }

/-- The record construction of parseUniformDeclaration: usedInBody is the
constant true. -/
def buildUniformObject (name type : String) (defaults : List (String × List ℚ)) (size : ℚ)
    (group binding : Option ℕ) (index : ℕ) (wilds : List String) : Resource :=
  { name := name
    group := jsFalsyOrNat group 0
    binding := jsFalsyOrBinding binding
    declarationIndex := index
    wildcards := wilds
    usedInBody := true
    data := .uni type defaults size }

/-- The record construction of parseSamplerDeclaration (before the optional
parameters are attached): usedInBody is the constant true. -/
def buildSamplerObject (name : String) (params : ResourceData)
    (group binding : Option ℕ) (index : ℕ) (wilds : List String) : Resource :=
  { name := name
    group := jsFalsyOrNat group 0
    binding := jsFalsyOrBinding binding
    declarationIndex := index
    wildcards := wilds
    usedInBody := true
    data := params }

/-- The record construction of parseReferenceDeclaration: usedInBody is the
constant true. -/
def buildReferenceObject (name type node refName category : String)
    (access : Option String) (group binding : Option ℕ) (index : ℕ) : Resource :=
  { name := name
    group := jsFalsyOrNat group 0
    binding := jsFalsyOrBinding binding
    declarationIndex := index
    wildcards := []
    usedInBody := true
    data := .ref node refName type category access }

/-! ## Binding allocator (computeBindingIndices)

The mutable per-group counter array of the source becomes a function from
groups to the next candidate binding; the while loop of getNextBinding
becomes fuel-bounded recursion (each skipped value is the explicit binding of
a distinct resource, so list length bounds the number of skips). -/

/-- Does some resource of the input list claim this binding in this group?
This is the while-loop condition of getNextBinding; it scans the original
list, where unassigned resources carry -1. -/
def bindingUsed (rs : List Resource) (g : ℕ) (b : ℤ) : Bool :=
  rs.any (fun r => r.binding = b && r.group = g)

/-- The while loop of getNextBinding: advance the candidate until it is not
claimed in the group. -/
def skipUsed (rs : List Resource) (g : ℕ) : ℕ → ℤ → ℤ
  | 0, b => b
  | fuel + 1, b => if bindingUsed rs g b then skipUsed rs g fuel (b + 1) else b

/-- The map of computeBindingIndices over the resource list, with the counter
state threaded explicitly: an unassigned resource receives the skipped
candidate for its group, and that group counter becomes one past it. -/
def assignGo (rs : List Resource) : (ℕ → ℤ) → List Resource → List Resource
  | _, [] => []
  | ctr, r :: rest =>
    if r.binding = -1 then
      let b := skipUsed rs r.group (rs.length + 1) (ctr r.group)
      { r with binding := b } ::
        assignGo rs (fun g => if g = r.group then b + 1 else ctr g) rest
    else r :: assignGo rs ctr rest

/-- The binding-assignment pass of computeBindingIndices (before sorting). -/
def assignBindings (rs : List Resource) : List Resource := assignGo rs (fun _ => 0) rs

/-- The sort comparator of computeBindingIndices: group ascending, then
binding ascending. -/
def bindingLe (a b : Resource) : Bool :=
  a.group < b.group || (a.group = b.group && a.binding ≤ b.binding)

/-- Shallow embedding of computeBindingIndices. The duplicate-binding check of
the source only logs a diagnostic and drops nothing, so it does not affect the
returned list. -/
def computeBindingIndices (rs : List Resource) : List Resource :=
  if rs.isEmpty then [] else (assignBindings rs).mergeSort bindingLe

/-! ## Shader metadata and the diff engine -/

structure ComputeShaderMetadata where
  type : String
  workgroupSize : List ℚ
  threadCount : List ℚ
  deriving DecidableEq, Repr

structure FragmentShaderMetadata where
  view : String
  resolveTarget : Option String
  canvas : Bool
  canvasSize : Option (List ℚ)
  deriving DecidableEq, Repr

inductive KindMetadata where
  | compute (m : ComputeShaderMetadata)
  | fragment (m : FragmentShaderMetadata)
  deriving DecidableEq, Repr

structure ShaderMetadata where
  type : String
  metadata : Option KindMetadata
  resources : List Resource
  code : String
  deriving DecidableEq, Repr

/-- Shallow embedding of areMetadataEqual. The JS function detects the variant
by field presence; mixed variants and a missing side compare unequal, two
missing sides equal. The canvasSize comparison is arraysEqual when both sides
are present and strict equality otherwise. -/
def areMetadataEqual : Option KindMetadata → Option KindMetadata → Bool
  | none, none => true
  | some (.compute b), some (.compute a) =>
    b.workgroupSize == a.workgroupSize && b.threadCount == a.threadCount && b.type == a.type
  | some (.fragment b), some (.fragment a) =>
    b.view == a.view && b.resolveTarget == a.resolveTarget && b.canvas == a.canvas &&
      (match b.canvasSize, a.canvasSize with
       | some x, some y => x == y
       | x, y => decide (x = y))
  | _, _ => false

/-- Shallow embedding of getResourceKey: resource identity for the diff. -/
def getResourceKey (r : Resource) : String :=
  r.name ++ "_" ++ toString r.group ++ "_" ++ r.resourceType

/-- The type-specific equality dispatch of areResourcesEqual (the switch over
resourceType with its per-kind field list; the default arm yields true). -/
def sameKindPayloadEqual : ResourceData → ResourceData → Bool
  | .tex s f t, .tex s2 f2 t2 => s == s2 && f == f2 && t == t2
  | .buf s t a st, .buf s2 t2 a2 st2 => s == s2 && t == t2 && a == a2 && st == st2
  | .uni t d s, .uni t2 d2 s2 => t == t2 && d == d2 && s == s2
  | .samp u v w mg mn mip lmin lmax cmp ani, .samp u2 v2 w2 mg2 mn2 mip2 lmin2 lmax2 cmp2 ani2 =>
    u == u2 && v == v2 && w == w2 && mg == mg2 && mn == mn2 && mip == mip2 &&
      lmin == lmin2 && lmax == lmax2 && cmp == cmp2 && ani == ani2
  | .ref n rf t c a, .ref n2 rf2 t2 c2 a2 =>
    n == n2 && rf == rf2 && t == t2 && c == c2 && a == a2
  | _, _ => true

/-- Shallow embedding of areResourcesEqual. The base comparison covers name,
group, resourceType, declarationIndex, usedInBody and wildcards; the binding
is not compared. -/
def areResourcesEqual (a b : Resource) : Bool :=
  if ¬ (a.name == b.name && a.group == b.group && a.resourceType == b.resourceType &&
        a.declarationIndex == b.declarationIndex && a.usedInBody == b.usedInBody &&
        a.wildcards == b.wildcards) then false
  else sameKindPayloadEqual a.data b.data

/-- Shallow embedding of areResourcesEqualExceptBinding: clone the first
resource with the binding of the second and compare deeply. -/
def areResourcesEqualExceptBinding (a b : Resource) : Bool :=
  areResourcesEqual { a with binding := b.binding } b

structure ShaderMetadataDiff where
  shaderReset : Bool
  deletions : List Resource
  additions : List Resource
  reorders : List Resource
  deriving DecidableEq, Repr

/-- Lookup in a JS Map built from keyed entries: a later entry with the same
key overwrites an earlier one, so the lookup returns the last match. -/
def jsMapGet : List Resource → String → Option Resource
  | [], _ => none
  | r :: rest, k =>
    match jsMapGet rest k with
    | some x => some x
    | none => if getResourceKey r = k then some r else none

/-- One iteration of the deletions-and-reorders loop of diffShaderMetadata. -/
def diffStep (afterRes : List Resource) (acc : ShaderMetadataDiff)
    (beforeResource : Resource) : ShaderMetadataDiff :=
  match jsMapGet afterRes (getResourceKey beforeResource) with
  | none => { acc with deletions := acc.deletions ++ [beforeResource] }
  | some afterResource =>
    if beforeResource.binding ≠ afterResource.binding then
      if areResourcesEqualExceptBinding beforeResource afterResource then
        { acc with reorders := acc.reorders ++ [afterResource] }
      else
        { acc with deletions := acc.deletions ++ [beforeResource],
                   additions := acc.additions ++ [afterResource] }
    else if ¬ areResourcesEqual beforeResource afterResource then
      { acc with deletions := acc.deletions ++ [beforeResource],
                 additions := acc.additions ++ [afterResource] }
    else acc

/-- Shallow embedding of diffShaderMetadata. -/
def diffShaderMetadata (before after : ShaderMetadata) : ShaderMetadataDiff :=
  let init : ShaderMetadataDiff :=
    { shaderReset := decide (before.type ≠ after.type) ||
        ! areMetadataEqual before.metadata after.metadata,
      deletions := [], additions := [], reorders := [] }
  let afterPass := before.resources.foldl (diffStep after.resources) init
  let newAdds := after.resources.filter
    (fun a => (jsMapGet before.resources (getResourceKey a)).isNone)
  { afterPass with additions := afterPass.additions ++ newAdds }

/-! ## Proof-support definitions -/

instance {ε α : Type} [DecidableEq ε] [DecidableEq α] : DecidableEq (Except ε α) := fun a b =>
  match a, b with
  | .ok x, .ok y =>
    if h : x = y then .isTrue (by rw [h]) else .isFalse (by intro hc; cases hc; exact h rfl)
  | .error x, .error y =>
    if h : x = y then .isTrue (by rw [h]) else .isFalse (by intro hc; cases hc; exact h rfl)
  | .ok _, .error _ => .isFalse (by intro hc; cases hc)
  | .error _, .ok _ => .isFalse (by intro hc; cases hc)

/-- The deletions contributed by one before-resource in the first loop of
diffShaderMetadata. -/
def delContrib (afterRes : List Resource) (r : Resource) : List Resource :=
  match jsMapGet afterRes (getResourceKey r) with
  | none => [r]
  | some a =>
    if r.binding ≠ a.binding then
      (if areResourcesEqualExceptBinding r a then [] else [r])
    else if ¬ areResourcesEqual r a then [r] else []

/-- The additions contributed by one before-resource in the first loop of
diffShaderMetadata. -/
def addContrib (afterRes : List Resource) (r : Resource) : List Resource :=
  match jsMapGet afterRes (getResourceKey r) with
  | none => []
  | some a =>
    if r.binding ≠ a.binding then
      (if areResourcesEqualExceptBinding r a then [] else [a])
    else if ¬ areResourcesEqual r a then [a] else []

/-- The reorders contributed by one before-resource in the first loop of
diffShaderMetadata. -/
def reordContrib (afterRes : List Resource) (r : Resource) : List Resource :=
  match jsMapGet afterRes (getResourceKey r) with
  | none => []
  | some a =>
    if r.binding ≠ a.binding then
      (if areResourcesEqualExceptBinding r a then [a] else [])
    else []

/-- The auto-assignment history: position j before position i in the input was
an unassigned resource of this group and received this binding in the output. -/
def autoAssignedBefore (rest out : List Resource) (i g : ℕ) (b : ℤ) : Prop :=
  ∃ j, j < i ∧ ∃ hj : j < rest.length, ∃ hj2 : j < out.length,
    (rest.get ⟨j, hj⟩).binding = -1 ∧ (rest.get ⟨j, hj⟩).group = g ∧
      (out.get ⟨j, hj2⟩).binding = b

/-- A binding in a group is claimed before position i: either an explicit
binding somewhere in the input list claims it, or an earlier unassigned
resource of the group was auto-assigned it. This is the claim set of the
first-fit specification. -/
def claimedBefore (rs : List Resource) (i g : ℕ) (b : ℤ) : Prop :=
  bindingUsed rs g b = true ∨ autoAssignedBefore rs (assignBindings rs) i g b

/-- Resources of a group with binding at least the candidate; the measure of
the getNextBinding while loop. -/
def usedCount (rs : List Resource) (g : ℕ) (b : ℤ) : ℕ :=
  rs.countP (fun r => r.group = g && b ≤ r.binding)

/-! Concrete fixtures for the witnesses and counterexamples. -/

/-- A texture resource fixture with the given identity fields. -/
def mkSimpleTex (name : String) (group : ℕ) (binding : ℤ) (idx : ℕ) : Resource :=
  { name := name, group := group, binding := binding, declarationIndex := idx,
    wildcards := [], usedInBody := true, data := .tex [4] "rgba8unorm" "texture_2d" }

/-- The resource list of the first-fit example of the specification: an
explicit binding 2 followed by two unassigned resources, all in group 0. -/
def exC1 : List Resource :=
  [mkSimpleTex "a" 0 2 0, mkSimpleTex "b" 0 (-1) 1, mkSimpleTex "c" 0 (-1) 2]

/-- Two resources with the same explicit binding in the same group. -/
def exDup : List Resource := [mkSimpleTex "a" 0 2 0, mkSimpleTex "b" 0 2 1]

/-- Two resources parsed from declarations that both carried @binding(0). -/
def exBind0 : List Resource :=
  [buildBufferObject "a" "array<f32>" 4 "read" none none (some 0) 0 [],
   buildBufferObject "b" "array<f32>" 4 "read" none none (some 0) 1 []]

/-- A small valid compute ShaderMetadata. -/
def exX : ShaderMetadata :=
  { type := "compute",
    metadata := some (.compute { type := "1d", workgroupSize := [64, 1, 1],
                                 threadCount := [100, 1, 1] }),
    resources := [mkSimpleTex "a" 0 0 0,
                  buildBufferObject "output_buffer" "array<f32>" 100 "read_write"
                    none none none 0 []],
    code := "" }

/-- A one-resource parse, and the same parse with only the binding changed. -/
def exBefore : ShaderMetadata :=
  { type := "resource", metadata := none, resources := [mkSimpleTex "t" 0 0 0], code := "" }

def exAfterReorder : ShaderMetadata :=
  { type := "resource", metadata := none, resources := [mkSimpleTex "t" 0 1 0], code := "" }

/-- A buffer declaration line on which @binding textually precedes @group. -/
def exBufLine : String :=
  "@buffer(@binding(1) @group(0) @size(4)) var<storage, read> b : array<f32>;"

/-- A texture declaration line on which @binding textually precedes @group. -/
def exTexLine : String :=
  "@texture(@binding(1) @group(0) @size(4) @format(rgba8unorm)) var t : texture_2d<f32>;"

/-- Source whose single function body uses the identifier tex0. -/
def exUseCode : String :=
  "@texture(@size(4) @format(rgba8unorm)) var tex0 : texture_2d<f32>;\nfn main() \x7b let a = tex0; \x7d"

/-- Source whose single function body does not mention the identifier data. -/
def exNoUseCode : String := "fn main() \x7b return 1.0; \x7d"

/-! ## Lemmas about the diff engine -/

theorem sameKindPayloadEqual_refl (d : ResourceData) : sameKindPayloadEqual d d = true := by
  cases d <;> simp [sameKindPayloadEqual]

theorem areResourcesEqual_refl (r : Resource) : areResourcesEqual r r = true := by
  simp [areResourcesEqual, sameKindPayloadEqual_refl]

theorem areMetadataEqual_refl (m : Option KindMetadata) : areMetadataEqual m m = true := by
  match m with
  | none => rfl
  | some (.compute c) => simp [areMetadataEqual]
  | some (.fragment f) => cases hc : f.canvasSize <;> simp [areMetadataEqual, hc]

theorem jsMapGet_eq_none_of (l : List Resource) (k : String)
    (h : ∀ x ∈ l, getResourceKey x ≠ k) : jsMapGet l k = none := by
  induction l with
  | nil => rfl
  | cons r rest ih =>
    have hrest := ih (fun x hx => h x (List.mem_cons_of_mem _ hx))
    simp [jsMapGet, hrest, h r (List.mem_cons_self _ _)]

theorem jsMapGet_mem {l : List Resource} {k : String} {x : Resource}
    (h : jsMapGet l k = some x) : x ∈ l ∧ getResourceKey x = k := by
  induction l with
  | nil => simp [jsMapGet] at h
  | cons r rest ih =>
    unfold jsMapGet at h
    cases hrec : jsMapGet rest k with
    | some y =>
      rw [hrec] at h
      cases h
      rcases ih hrec with ⟨hmem, hkey⟩
      exact ⟨List.mem_cons_of_mem _ hmem, hkey⟩
    | none =>
      rw [hrec] at h
      by_cases hk : getResourceKey r = k
      · rw [if_pos hk] at h
        cases h
        exact ⟨List.mem_cons_self _ _, hk⟩
      · rw [if_neg hk] at h
        cases h

theorem jsMapGet_self {l : List Resource} (hnd : (l.map getResourceKey).Nodup)
    {r : Resource} (hr : r ∈ l) : jsMapGet l (getResourceKey r) = some r := by
  induction l with
  | nil => cases hr
  | cons x rest ih =>
    rw [List.map_cons, List.nodup_cons] at hnd
    rcases List.mem_cons.mp hr with heq | hmem
    · subst heq
      have hnone : jsMapGet rest (getResourceKey r) = none := by
        apply jsMapGet_eq_none_of
        intro y hy hkey
        exact hnd.1 (hkey ▸ List.mem_map_of_mem getResourceKey hy)
      simp [jsMapGet, hnone]
    · have := ih hnd.2 hmem
      simp [jsMapGet, this]

theorem flatMap_eq_nil_of {α β : Type} (l : List α) (f : α → List β)
    (h : ∀ x ∈ l, f x = []) : l.flatMap f = [] := by
  induction l with
  | nil => rfl
  | cons x xs ih =>
    rw [List.flatMap_cons, h x (List.mem_cons_self _ _),
      ih (fun y hy => h y (List.mem_cons_of_mem _ hy))]
    rfl

theorem filter_flatMap {α β : Type} (l : List α) (f : α → List β) (p : β → Bool) :
    (l.flatMap f).filter p = l.flatMap (fun x => (f x).filter p) := by
  induction l with
  | nil => rfl
  | cons x xs ih => rw [List.flatMap_cons, List.filter_append, ih, List.flatMap_cons]

theorem flatMap_eq_single {α β : Type} {l : List α} (g : α → List β) {b : α}
    (hb : b ∈ l) (hnd : l.Nodup) (hother : ∀ x ∈ l, x ≠ b → g x = []) :
    l.flatMap g = g b := by
  induction l with
  | nil => cases hb
  | cons x xs ih =>
    rw [List.nodup_cons] at hnd
    rw [List.flatMap_cons]
    rcases List.mem_cons.mp hb with heq | hmem
    · subst heq
      have : xs.flatMap g = [] := by
        apply flatMap_eq_nil_of
        intro y hy
        exact hother y (List.mem_cons_of_mem _ hy) (fun hyb => hnd.1 (hyb ▸ hy))
      rw [this, List.append_nil]
    · have hx : g x = [] :=
        hother x (List.mem_cons_self _ _) (fun hxb => hnd.1 (hxb ▸ hmem))
      rw [hx, ih hmem hnd.2 (fun y hy hyb => hother y (List.mem_cons_of_mem _ hy) hyb),
        List.nil_append]

theorem diff_foldl_decomp (A : List Resource) (l : List Resource)
    (init : ShaderMetadataDiff) :
    l.foldl (diffStep A) init =
      { shaderReset := init.shaderReset,
        deletions := init.deletions ++ l.flatMap (delContrib A),
        additions := init.additions ++ l.flatMap (addContrib A),
        reorders := init.reorders ++ l.flatMap (reordContrib A) } := by
  induction l generalizing init with
  | nil => simp
  | cons r rest ih =>
    rw [List.foldl_cons, ih]
    unfold diffStep delContrib addContrib reordContrib
    cases h : jsMapGet A (getResourceKey r) with
    | none => simp [h]
    | some a =>
      by_cases h1 : r.binding = a.binding
      · by_cases h3 : areResourcesEqual r a = true
        · simp [h, h1, h3]
        · have h3f : areResourcesEqual r a = false := by simpa using h3
          simp [h, h1, h3f]
      · by_cases h2 : areResourcesEqualExceptBinding r a = true
        · simp [h, h1, h2]
        · have h2f : areResourcesEqualExceptBinding r a = false := by simpa using h2
          simp [h, h1, h2f]

/-- C2: diffing a valid ShaderMetadata against itself yields no deletions, no
additions, no reorders, and no shader reset. Validity is formalized as
distinctness of the resource identity keys (the diff engine addresses
resources by getResourceKey). -/
theorem diffShaderMetadata_self (X : ShaderMetadata)
    (hvalid : (X.resources.map getResourceKey).Nodup) :
    diffShaderMetadata X X =
      { shaderReset := false, deletions := [], additions := [], reorders := [] } := by
  simp only [diffShaderMetadata]
  rw [diff_foldl_decomp]
  have hself : ∀ r ∈ X.resources, jsMapGet X.resources (getResourceKey r) = some r :=
    fun r hr => jsMapGet_self hvalid hr
  have hdel : X.resources.flatMap (delContrib X.resources) = [] := by
    apply flatMap_eq_nil_of
    intro r hr
    unfold delContrib
    rw [hself r hr]
    simp [areResourcesEqual_refl]
  have hadd : X.resources.flatMap (addContrib X.resources) = [] := by
    apply flatMap_eq_nil_of
    intro r hr
    unfold addContrib
    rw [hself r hr]
    simp [areResourcesEqual_refl]
  have hreord : X.resources.flatMap (reordContrib X.resources) = [] := by
    apply flatMap_eq_nil_of
    intro r hr
    unfold reordContrib
    rw [hself r hr]
    simp
  have hfilter : X.resources.filter
      (fun a => (jsMapGet X.resources (getResourceKey a)).isNone) = [] := by
    rw [List.filter_eq_nil_iff]
    intro a ha
    rw [hself a ha]
    simp
  simp [hdel, hadd, hreord, hfilter, areMetadataEqual_refl]

/-- Witness for C2 at a concrete compute-shader metadata. -/
theorem diffShaderMetadata_self_witness :
    diffShaderMetadata exX exX =
      { shaderReset := false, deletions := [], additions := [], reorders := [] } :=
  diffShaderMetadata_self exX (by decide)

/-- C3: for a resource identity present in both parses (with identities
distinct within each parse), if only the binding differs, the diff classifies
the resource as exactly one reorder and neither a deletion nor an addition;
if anything else differs, it classifies it as exactly one deletion (the
before version) plus one addition (the after version) and no reorder. -/
theorem diffShaderMetadata_classification
    (before after : ShaderMetadata) (b a : Resource)
    (hndB : (before.resources.map getResourceKey).Nodup)
    (hndA : (after.resources.map getResourceKey).Nodup)
    (hb : b ∈ before.resources) (ha : a ∈ after.resources)
    (hkey : getResourceKey b = getResourceKey a) :
    (b.binding ≠ a.binding → areResourcesEqualExceptBinding b a = true →
      ((diffShaderMetadata before after).reorders.filter
          (fun r => getResourceKey r == getResourceKey b) = [a] ∧
       (diffShaderMetadata before after).deletions.filter
          (fun r => getResourceKey r == getResourceKey b) = [] ∧
       (diffShaderMetadata before after).additions.filter
          (fun r => getResourceKey r == getResourceKey b) = [])) ∧
    (areResourcesEqualExceptBinding b a = false →
      ((diffShaderMetadata before after).deletions.filter
          (fun r => getResourceKey r == getResourceKey b) = [b] ∧
       (diffShaderMetadata before after).additions.filter
          (fun r => getResourceKey r == getResourceKey b) = [a] ∧
       (diffShaderMetadata before after).reorders.filter
          (fun r => getResourceKey r == getResourceKey b) = [])) := by
  have hinjB : ∀ x ∈ before.resources, getResourceKey x = getResourceKey b → x = b :=
    fun x hx hkx => List.inj_on_of_nodup_map hndB hx hb hkx
  have hinjA : ∀ y ∈ after.resources, getResourceKey y = getResourceKey b → y = a :=
    fun y hy hky => List.inj_on_of_nodup_map hndA hy ha (hkey ▸ hky)
  have hgetA : jsMapGet after.resources (getResourceKey b) = some a := by
    rw [hkey]; exact jsMapGet_self hndA ha
  have hgetB : jsMapGet before.resources (getResourceKey b) = some b :=
    jsMapGet_self hndB hb
  have hkab : getResourceKey a = getResourceKey b := hkey.symm
  have hNodupB : before.resources.Nodup := List.Nodup.of_map _ hndB
  have hd : diffShaderMetadata before after =
      { shaderReset := decide (before.type ≠ after.type) ||
          ! areMetadataEqual before.metadata after.metadata,
        deletions := [] ++ before.resources.flatMap (delContrib after.resources),
        additions := ([] ++ before.resources.flatMap (addContrib after.resources)) ++
          after.resources.filter
            (fun x => (jsMapGet before.resources (getResourceKey x)).isNone),
        reorders := [] ++ before.resources.flatMap (reordContrib after.resources) } := by
    simp only [diffShaderMetadata]
    rw [diff_foldl_decomp]
  set p : Resource → Bool := fun r => getResourceKey r == getResourceKey b with hp
  have hpb : p b = true := by simp [hp]
  have hpa : p a = true := by simp [hp, hkab]
  have hothers : ∀ (contrib : List Resource → Resource → List Resource),
      (∀ A x y, y ∈ contrib A x →
        y = x ∨ ∃ z, jsMapGet A (getResourceKey x) = some z ∧ y = z) →
      ∀ x ∈ before.resources, x ≠ b →
        (contrib after.resources x).filter p = [] := by
    intro contrib hshape x hx hxb
    have hkx : getResourceKey x ≠ getResourceKey b := fun hc => hxb (hinjB x hx hc)
    rw [List.filter_eq_nil_iff]
    intro y hy
    rcases hshape after.resources x y hy with rfl | ⟨z, hz, rfl⟩
    · simp [hp, hkx]
    · have hkz := (jsMapGet_mem hz).2
      simp [hp, hkz, hkx]
  have hdelShape : ∀ A x y, y ∈ delContrib A x →
      y = x ∨ ∃ z, jsMapGet A (getResourceKey x) = some z ∧ y = z := by
    intro A x y hy
    unfold delContrib at hy
    cases hz : jsMapGet A (getResourceKey x) with
    | none => rw [hz] at hy; simp at hy; exact Or.inl hy
    | some z =>
      rw [hz] at hy
      dsimp only at hy
      split_ifs at hy <;> simp at hy <;> exact Or.inl hy
  have haddShape : ∀ A x y, y ∈ addContrib A x →
      y = x ∨ ∃ z, jsMapGet A (getResourceKey x) = some z ∧ y = z := by
    intro A x y hy
    unfold addContrib at hy
    cases hz : jsMapGet A (getResourceKey x) with
    | none => rw [hz] at hy; simp at hy
    | some z =>
      rw [hz] at hy
      dsimp only at hy
      split_ifs at hy <;> simp at hy <;> exact Or.inr ⟨z, rfl, hy⟩
  have hreordShape : ∀ A x y, y ∈ reordContrib A x →
      y = x ∨ ∃ z, jsMapGet A (getResourceKey x) = some z ∧ y = z := by
    intro A x y hy
    unfold reordContrib at hy
    cases hz : jsMapGet A (getResourceKey x) with
    | none => rw [hz] at hy; simp at hy
    | some z =>
      rw [hz] at hy
      dsimp only at hy
      split_ifs at hy <;> simp at hy <;> exact Or.inr ⟨z, rfl, hy⟩
  have hdelMain : (before.resources.flatMap (delContrib after.resources)).filter p =
      (delContrib after.resources b).filter p := by
    rw [filter_flatMap]
    exact flatMap_eq_single _ hb hNodupB (hothers _ hdelShape)
  have haddMain : (before.resources.flatMap (addContrib after.resources)).filter p =
      (addContrib after.resources b).filter p := by
    rw [filter_flatMap]
    exact flatMap_eq_single _ hb hNodupB (hothers _ haddShape)
  have hreordMain : (before.resources.flatMap (reordContrib after.resources)).filter p =
      (reordContrib after.resources b).filter p := by
    rw [filter_flatMap]
    exact flatMap_eq_single _ hb hNodupB (hothers _ hreordShape)
  have hnewAdds : (after.resources.filter
      (fun x => (jsMapGet before.resources (getResourceKey x)).isNone)).filter p = [] := by
    rw [List.filter_filter, List.filter_eq_nil_iff]
    intro y hy hc
    rw [Bool.and_eq_true] at hc
    have hky : getResourceKey y = getResourceKey b := by
      have := hc.1
      simp [hp] at this
      exact this
    have : y = a := hinjA y hy hky
    subst this
    rw [hkab, hgetB] at hc
    simp at hc
  constructor
  · intro hbind heq
    have hdelb : delContrib after.resources b = [] := by
      unfold delContrib
      rw [hgetA]
      simp [hbind, heq]
    have haddb : addContrib after.resources b = [] := by
      unfold addContrib
      rw [hgetA]
      simp [hbind, heq]
    have hreordb : reordContrib after.resources b = [a] := by
      unfold reordContrib
      rw [hgetA]
      simp [hbind, heq]
    refine ⟨?_, ?_, ?_⟩
    · rw [hd]
      simp only [List.nil_append]
      rw [hreordMain, hreordb]
      simp [hpa]
    · rw [hd]
      simp only [List.nil_append]
      rw [hdelMain, hdelb]
      rfl
    · rw [hd]
      simp only [List.nil_append, List.filter_append]
      rw [haddMain, haddb, hnewAdds]
      rfl
  · intro hne
    have hdelb : delContrib after.resources b = [b] := by
      unfold delContrib
      rw [hgetA]
      by_cases hbind : b.binding = a.binding
      · have hre : areResourcesEqual b a = false := by
          have hbb : ({ b with binding := a.binding } : Resource) = b := by
            rw [← hbind]
          unfold areResourcesEqualExceptBinding at hne
          rw [hbb] at hne
          exact hne
        simp [hbind, hre]
      · simp [hbind, hne]
    have haddb : addContrib after.resources b = [a] := by
      unfold addContrib
      rw [hgetA]
      by_cases hbind : b.binding = a.binding
      · have hre : areResourcesEqual b a = false := by
          have hbb : ({ b with binding := a.binding } : Resource) = b := by
            rw [← hbind]
          unfold areResourcesEqualExceptBinding at hne
          rw [hbb] at hne
          exact hne
        simp [hbind, hre]
      · simp [hbind, hne]
    have hreordb : reordContrib after.resources b = [] := by
      unfold reordContrib
      rw [hgetA]
      by_cases hbind : b.binding = a.binding
      · simp [hbind]
      · simp [hbind, hne]
    refine ⟨?_, ?_, ?_⟩
    · rw [hd]
      simp only [List.nil_append]
      rw [hdelMain, hdelb]
      simp [hpb]
    · rw [hd]
      simp only [List.nil_append, List.filter_append]
      rw [haddMain, haddb, hnewAdds]
      simp [hpa]
    · rw [hd]
      simp only [List.nil_append]
      rw [hreordMain, hreordb]
      rfl

/-- Witness for C3 at a concrete one-resource pair of parses differing only in
the binding. -/
theorem diffShaderMetadata_classification_witness :
    (diffShaderMetadata exBefore exAfterReorder).reorders.filter
        (fun r => getResourceKey r == getResourceKey (mkSimpleTex "t" 0 0 0)) =
      [mkSimpleTex "t" 0 1 0] :=
  ((diffShaderMetadata_classification exBefore exAfterReorder
      (mkSimpleTex "t" 0 0 0) (mkSimpleTex "t" 0 1 0)
      (by decide) (by decide) (by decide) (by decide) (by decide)).1
    (by decide) (by decide)).1

/-! ## Lemmas about the binding allocator -/

theorem usedCount_mono (rs : List Resource) (g : ℕ) (b : ℤ) :
    usedCount rs g (b + 1) ≤ usedCount rs g b := by
  unfold usedCount
  apply List.countP_mono_left
  intro x _ hx
  rw [Bool.and_eq_true, decide_eq_true_eq, decide_eq_true_eq] at hx
  rw [Bool.and_eq_true, decide_eq_true_eq, decide_eq_true_eq]
  exact ⟨hx.1, by omega⟩

theorem usedCount_strict (rs : List Resource) (g : ℕ) (b : ℤ) (r : Resource)
    (hr : r ∈ rs) (hg : r.group = g) (hb : r.binding = b) :
    usedCount rs g (b + 1) < usedCount rs g b := by
  have hperm : rs.Perm (r :: rs.erase r) := List.perm_cons_erase hr
  unfold usedCount
  rw [hperm.countP_eq, hperm.countP_eq, List.countP_cons, List.countP_cons]
  have hmono : (rs.erase r).countP (fun x => x.group = g && b + 1 ≤ x.binding) ≤
      (rs.erase r).countP (fun x => x.group = g && b ≤ x.binding) := by
    apply List.countP_mono_left
    intro x _ hx
    rw [Bool.and_eq_true, decide_eq_true_eq, decide_eq_true_eq] at hx
    rw [Bool.and_eq_true, decide_eq_true_eq, decide_eq_true_eq]
    exact ⟨hx.1, by omega⟩
  have h1 : ((fun x : Resource => x.group = g && b ≤ x.binding) r = true) := by
    simp only [Bool.and_eq_true, decide_eq_true_eq]
    exact ⟨hg, by omega⟩
  have h2 : ¬ ((fun x : Resource => x.group = g && b + 1 ≤ x.binding) r = true) := by
    simp only [Bool.and_eq_true, decide_eq_true_eq]
    rintro ⟨_, hc⟩
    omega
  rw [if_pos h1, if_neg h2]
  omega

theorem usedCount_le_length (rs : List Resource) (g : ℕ) (b : ℤ) :
    usedCount rs g b ≤ rs.length :=
  List.countP_le_length _

theorem skipUsed_ge (rs : List Resource) (g : ℕ) :
    ∀ (fuel : ℕ) (b : ℤ), b ≤ skipUsed rs g fuel b := by
  intro fuel
  induction fuel with
  | zero => intro b; simp [skipUsed]
  | succ n ih =>
    intro b
    unfold skipUsed
    by_cases hu : bindingUsed rs g b = true
    · rw [if_pos hu]
      have := ih (b + 1)
      omega
    · rw [if_neg hu]

theorem skipUsed_not_used (rs : List Resource) (g : ℕ) :
    ∀ (fuel : ℕ) (b : ℤ), usedCount rs g b < fuel →
      bindingUsed rs g (skipUsed rs g fuel b) = false := by
  intro fuel
  induction fuel with
  | zero => intro b h; omega
  | succ n ih =>
    intro b h
    unfold skipUsed
    by_cases hu : bindingUsed rs g b = true
    · rw [if_pos hu]
      apply ih
      rw [bindingUsed, List.any_eq_true] at hu
      obtain ⟨r, hr, hcond⟩ := hu
      rw [Bool.and_eq_true, decide_eq_true_eq, decide_eq_true_eq] at hcond
      have := usedCount_strict rs g b r hr hcond.2 hcond.1
      omega
    · rw [if_neg hu]
      simpa using hu

theorem skipUsed_mid (rs : List Resource) (g : ℕ) :
    ∀ (fuel : ℕ) (b v : ℤ), b ≤ v → v < skipUsed rs g fuel b →
      bindingUsed rs g v = true := by
  intro fuel
  induction fuel with
  | zero =>
    intro b v h1 h2
    simp only [skipUsed] at h2
    omega
  | succ n ih =>
    intro b v h1 h2
    unfold skipUsed at h2
    by_cases hu : bindingUsed rs g b = true
    · rw [if_pos hu] at h2
      by_cases hv : v = b
      · subst hv; exact hu
      · exact ih (b + 1) v (by omega) h2
    · rw [if_neg hu] at h2
      omega

theorem assignGo_cons_auto (rs : List Resource) (ctr : ℕ → ℤ) (r : Resource)
    (rest : List Resource) (hr : r.binding = -1) :
    assignGo rs ctr (r :: rest) =
      { r with binding := skipUsed rs r.group (rs.length + 1) (ctr r.group) } ::
        assignGo rs
          (fun g => if g = r.group
            then skipUsed rs r.group (rs.length + 1) (ctr r.group) + 1 else ctr g)
          rest := by
  simp only [assignGo]
  rw [if_pos hr]

theorem assignGo_cons_explicit (rs : List Resource) (ctr : ℕ → ℤ) (r : Resource)
    (rest : List Resource) (hr : r.binding ≠ -1) :
    assignGo rs ctr (r :: rest) = r :: assignGo rs ctr rest := by
  simp only [assignGo]
  rw [if_neg hr]

theorem assignGo_length (rs : List Resource) :
    ∀ (rest : List Resource) (ctr : ℕ → ℤ), (assignGo rs ctr rest).length = rest.length := by
  intro rest
  induction rest with
  | nil => intro ctr; rfl
  | cons r rest ih =>
    intro ctr
    by_cases hr : r.binding = -1
    · rw [assignGo_cons_auto rs ctr r rest hr]
      simp [ih]
    · rw [assignGo_cons_explicit rs ctr r rest hr]
      simp [ih]

theorem autoAssignedBefore_cons (r r2 : Resource) (rest out : List Resource)
    (i g : ℕ) (b : ℤ) :
    autoAssignedBefore (r :: rest) (r2 :: out) (i + 1) g b ↔
      ((r.binding = -1 ∧ r.group = g ∧ r2.binding = b) ∨
        autoAssignedBefore rest out i g b) := by
  unfold autoAssignedBefore
  constructor
  · rintro ⟨j, hj, hjr, hjo, h1, h2, h3⟩
    cases j with
    | zero => exact Or.inl ⟨h1, h2, h3⟩
    | succ j2 =>
      right
      have hjr2 : j2 < rest.length := by simp at hjr; omega
      have hjo2 : j2 < out.length := by simp at hjo; omega
      refine ⟨j2, by omega, hjr2, hjo2, ?_, ?_, ?_⟩
      · rw [← List.get_cons_succ (a := r) (h := hjr)]; exact h1
      · rw [← List.get_cons_succ (a := r) (h := hjr)]; exact h2
      · rw [← List.get_cons_succ (a := r2) (h := hjo)]; exact h3
  · rintro (⟨h1, h2, h3⟩ | ⟨j, hj, hjr, hjo, h1, h2, h3⟩)
    · exact ⟨0, by omega, by simp, by simp, h1, h2, h3⟩
    · refine ⟨j + 1, by omega, by simp; omega, by simp; omega, ?_, ?_, ?_⟩
      · rw [List.get_cons_succ]; exact h1
      · rw [List.get_cons_succ]; exact h2
      · rw [List.get_cons_succ]; exact h3

theorem assignGo_get_spec (rs : List Resource) :
    ∀ (rest : List Resource) (ctr : ℕ → ℤ) (P : ℕ → ℤ → Prop),
      (∀ g, 0 ≤ ctr g) →
      (∀ g v, 0 ≤ v → v < ctr g → bindingUsed rs g v = true ∨ P g v) →
      (∀ g v, P g v → v < ctr g) →
      ∀ (i : ℕ) (hi : i < rest.length) (hi2 : i < (assignGo rs ctr rest).length),
        ((rest.get ⟨i, hi⟩).binding ≠ -1 →
          (assignGo rs ctr rest).get ⟨i, hi2⟩ = rest.get ⟨i, hi⟩) ∧
        ((rest.get ⟨i, hi⟩).binding = -1 →
          ((assignGo rs ctr rest).get ⟨i, hi2⟩).group = (rest.get ⟨i, hi⟩).group ∧
          0 ≤ ((assignGo rs ctr rest).get ⟨i, hi2⟩).binding ∧
          ¬ (bindingUsed rs (rest.get ⟨i, hi⟩).group
                ((assignGo rs ctr rest).get ⟨i, hi2⟩).binding = true ∨
             P (rest.get ⟨i, hi⟩).group ((assignGo rs ctr rest).get ⟨i, hi2⟩).binding ∨
             autoAssignedBefore rest (assignGo rs ctr rest) i (rest.get ⟨i, hi⟩).group
                ((assignGo rs ctr rest).get ⟨i, hi2⟩).binding) ∧
          ∀ v : ℤ, 0 ≤ v → v < ((assignGo rs ctr rest).get ⟨i, hi2⟩).binding →
            (bindingUsed rs (rest.get ⟨i, hi⟩).group v = true ∨
             P (rest.get ⟨i, hi⟩).group v ∨
             autoAssignedBefore rest (assignGo rs ctr rest) i (rest.get ⟨i, hi⟩).group v)) := by
  intro rest
  induction rest with
  | nil =>
    intro ctr P _ _ _ i hi _
    simp at hi
  | cons r rest ih =>
    intro ctr P H1 H2 H3 i hi hi2
    by_cases hr : r.binding = -1
    · have hae := assignGo_cons_auto rs ctr r rest hr
      set b := skipUsed rs r.group (rs.length + 1) (ctr r.group) with hbdef
      have hge : ctr r.group ≤ b := skipUsed_ge rs r.group _ _
      have hb0 : (0 : ℤ) ≤ b := le_trans (H1 r.group) hge
      have hnu : bindingUsed rs r.group b = false := by
        apply skipUsed_not_used
        have := usedCount_le_length rs r.group (ctr r.group)
        omega
      have hmid : ∀ v, ctr r.group ≤ v → v < b → bindingUsed rs r.group v = true :=
        fun v hv1 hv2 => skipUsed_mid rs r.group _ _ v hv1 hv2
      have H1' : ∀ g, 0 ≤ (if g = r.group then b + 1 else ctr g) := by
        intro g
        by_cases hg : g = r.group
        · rw [if_pos hg]; omega
        · rw [if_neg hg]; exact H1 g
      have H2' : ∀ g v, 0 ≤ v → v < (if g = r.group then b + 1 else ctr g) →
          bindingUsed rs g v = true ∨ (P g v ∨ (r.group = g ∧ b = v)) := by
        intro g v hv0 hvc
        by_cases hg : g = r.group
        · rw [if_pos hg] at hvc
          subst hg
          by_cases hvb : v = b
          · exact Or.inr (Or.inr ⟨rfl, hvb.symm⟩)
          · by_cases hvl : v < ctr r.group
            · rcases H2 r.group v hv0 hvl with h | h
              · exact Or.inl h
              · exact Or.inr (Or.inl h)
            · exact Or.inl (hmid v (by omega) (by omega))
        · rw [if_neg hg] at hvc
          rcases H2 g v hv0 hvc with h | h
          · exact Or.inl h
          · exact Or.inr (Or.inl h)
      have H3' : ∀ g v, (P g v ∨ (r.group = g ∧ b = v)) →
          v < (if g = r.group then b + 1 else ctr g) := by
        intro g v hp
        rcases hp with hp | ⟨hg, hbv⟩
        · have := H3 g v hp
          by_cases hgg : g = r.group
          · rw [if_pos hgg]
            rw [hgg] at this
            omega
          · rw [if_neg hgg]; exact this
        · rw [if_pos hg.symm]
          omega
      have spec2 := ih (fun g => if g = r.group then b + 1 else ctr g)
        (fun g v => P g v ∨ (r.group = g ∧ b = v)) H1' H2' H3'
      cases i with
      | zero =>
        have hget0o : (assignGo rs ctr (r :: rest)).get ⟨0, hi2⟩ =
            { r with binding := b } := by
          rw [List.get_of_eq hae]
          rfl
        constructor
        · intro hne
          exact absurd hr hne
        · intro _
          rw [hget0o]
          have hgR : (r :: rest).get ⟨0, hi⟩ = r := rfl
          have hbproj : ({ r with binding := b } : Resource).binding = b := rfl
          rw [hgR, hbproj]
          refine ⟨rfl, hb0, ?_, ?_⟩
          · rintro (h | h | h)
            · rw [hnu] at h
              cases h
            · have := H3 _ _ h
              omega
            · rcases h with ⟨j, hj, _⟩
              omega
          · intro v hv0 hvb
            by_cases hvl : v < ctr r.group
            · rcases H2 _ v hv0 hvl with h | h
              · exact Or.inl h
              · exact Or.inr (Or.inl h)
            · exact Or.inl (hmid v (by omega) hvb)
      | succ j =>
        have hj : j < rest.length := by simp at hi; omega
        have hj2 : j < (assignGo rs
            (fun g => if g = r.group then b + 1 else ctr g) rest).length := by
          rw [assignGo_length]; exact hj
        have hspec := spec2 j hj hj2
        have hgetR : (r :: rest).get ⟨j + 1, hi⟩ = rest.get ⟨j, hj⟩ :=
          List.get_cons_succ
        have hgetO : (assignGo rs ctr (r :: rest)).get ⟨j + 1, hi2⟩ =
            (assignGo rs (fun g => if g = r.group then b + 1 else ctr g) rest).get
              ⟨j, hj2⟩ := by
          rw [List.get_of_eq hae]
          exact List.get_cons_succ
        have htrans : ∀ g v,
            (bindingUsed rs g v = true ∨ P g v ∨
              autoAssignedBefore (r :: rest) (assignGo rs ctr (r :: rest)) (j + 1) g v) ↔
            (bindingUsed rs g v = true ∨
              (P g v ∨ (r.group = g ∧ b = v)) ∨
              autoAssignedBefore rest
                (assignGo rs (fun g => if g = r.group then b + 1 else ctr g) rest) j g v) := by
          intro g v
          rw [hae, autoAssignedBefore_cons]
          have hb' : ({ r with binding := b } : Resource).binding = b := rfl
          rw [hb', hr]
          constructor
          · rintro (h | h | ⟨⟨_, h2, h3⟩ | h⟩)
            · exact Or.inl h
            · exact Or.inr (Or.inl (Or.inl h))
            · exact Or.inr (Or.inl (Or.inr ⟨h2, h3⟩))
            · exact Or.inr (Or.inr h)
          · rintro (h | (h | ⟨h2, h3⟩) | h)
            · exact Or.inl h
            · exact Or.inr (Or.inl h)
            · exact Or.inr (Or.inr (Or.inl ⟨rfl, h2, h3⟩))
            · exact Or.inr (Or.inr (Or.inr h))
        rw [hgetR, hgetO]
        refine ⟨hspec.1, ?_⟩
        intro hauto
        obtain ⟨hg, hb0', hneg, hmin⟩ := hspec.2 hauto
        refine ⟨hg, hb0', ?_, ?_⟩
        · intro hc
          exact hneg ((htrans _ _).mp hc)
        · intro v hv0 hvb
          exact (htrans _ _).mpr (hmin v hv0 hvb)
    · have hae := assignGo_cons_explicit rs ctr r rest hr
      cases i with
      | zero =>
        have hget0o : (assignGo rs ctr (r :: rest)).get ⟨0, hi2⟩ = r := by
          rw [List.get_of_eq hae]
          rfl
        constructor
        · intro _
          rw [hget0o]
          rfl
        · intro hc
          exact absurd hc hr
      | succ j =>
        have hj : j < rest.length := by simp at hi; omega
        have hj2 : j < (assignGo rs ctr rest).length := by
          rw [assignGo_length]; exact hj
        have hspec := ih ctr P H1 H2 H3 j hj hj2
        have hgetR : (r :: rest).get ⟨j + 1, hi⟩ = rest.get ⟨j, hj⟩ :=
          List.get_cons_succ
        have hgetO : (assignGo rs ctr (r :: rest)).get ⟨j + 1, hi2⟩ =
            (assignGo rs ctr rest).get ⟨j, hj2⟩ := by
          rw [List.get_of_eq hae]
          exact List.get_cons_succ
        have htrans : ∀ g v,
            (bindingUsed rs g v = true ∨ P g v ∨
              autoAssignedBefore (r :: rest) (assignGo rs ctr (r :: rest)) (j + 1) g v) ↔
            (bindingUsed rs g v = true ∨ P g v ∨
              autoAssignedBefore rest (assignGo rs ctr rest) j g v) := by
          intro g v
          rw [hae, autoAssignedBefore_cons]
          constructor
          · rintro (h | h | ⟨⟨h1, _, _⟩ | h⟩)
            · exact Or.inl h
            · exact Or.inr (Or.inl h)
            · exact absurd h1 hr
            · exact Or.inr (Or.inr h)
          · rintro (h | h | h)
            · exact Or.inl h
            · exact Or.inr (Or.inl h)
            · exact Or.inr (Or.inr (Or.inr h))
        rw [hgetR, hgetO]
        refine ⟨hspec.1, ?_⟩
        intro hauto
        obtain ⟨hg, hb0', hneg, hmin⟩ := hspec.2 hauto
        refine ⟨hg, hb0', ?_, ?_⟩
        · intro hc
          exact hneg ((htrans _ _).mp hc)
        · intro v hv0 hvb
          exact (htrans _ _).mpr (hmin v hv0 hvb)

theorem assignBindings_spec (rs : List Resource) (i : ℕ) (hi : i < rs.length)
    (hi2 : i < (assignBindings rs).length) :
    ((rs.get ⟨i, hi⟩).binding ≠ -1 →
      (assignBindings rs).get ⟨i, hi2⟩ = rs.get ⟨i, hi⟩) ∧
    ((rs.get ⟨i, hi⟩).binding = -1 →
      ((assignBindings rs).get ⟨i, hi2⟩).group = (rs.get ⟨i, hi⟩).group ∧
      0 ≤ ((assignBindings rs).get ⟨i, hi2⟩).binding ∧
      ¬ claimedBefore rs i (rs.get ⟨i, hi⟩).group
          ((assignBindings rs).get ⟨i, hi2⟩).binding ∧
      ∀ v : ℤ, 0 ≤ v → v < ((assignBindings rs).get ⟨i, hi2⟩).binding →
        claimedBefore rs i (rs.get ⟨i, hi⟩).group v) := by
  have hH1 : ∀ g : ℕ, (0 : ℤ) ≤ (fun _ : ℕ => (0 : ℤ)) g := fun _ => le_refl 0
  have hH2 : ∀ (g : ℕ) (v : ℤ), 0 ≤ v → v < (fun _ : ℕ => (0 : ℤ)) g →
      bindingUsed rs g v = true ∨ False := by
    intro g v h1 h2
    exact absurd (show v < 0 from h2) (by omega)
  have hH3 : ∀ (g : ℕ) (v : ℤ), False → v < (fun _ : ℕ => (0 : ℤ)) g :=
    fun _ _ hf => hf.elim
  have hspec := assignGo_get_spec rs rs (fun _ => 0) (fun _ _ => False) hH1 hH2 hH3 i hi hi2
  refine ⟨hspec.1, ?_⟩
  intro hauto
  obtain ⟨hg, hb0, hneg, hmin⟩ := hspec.2 hauto
  refine ⟨hg, hb0, ?_, ?_⟩
  · intro hc
    apply hneg
    rcases hc with h | h
    · exact Or.inl h
    · exact Or.inr (Or.inr h)
  · intro v hv0 hvb
    rcases hmin v hv0 hvb with h | h | h
    · exact Or.inl h
    · exact h.elim
    · exact Or.inr h

/-- C1: within each group, every resource parsed with an unassigned binding
receives, in source order, the smallest non-negative integer binding not
already claimed in that group by an explicit binding or a previously
auto-assigned binding (first-fit ascending, never max plus one). -/
theorem computeBindingIndices_first_fit (rs : List Resource) (i : ℕ)
    (hi : i < rs.length) (hauto : (rs.get ⟨i, hi⟩).binding = -1) :
    ∃ hi2 : i < (assignBindings rs).length,
      ((assignBindings rs).get ⟨i, hi2⟩).group = (rs.get ⟨i, hi⟩).group ∧
      0 ≤ ((assignBindings rs).get ⟨i, hi2⟩).binding ∧
      ¬ claimedBefore rs i (rs.get ⟨i, hi⟩).group
          ((assignBindings rs).get ⟨i, hi2⟩).binding ∧
      ∀ v : ℤ, 0 ≤ v → v < ((assignBindings rs).get ⟨i, hi2⟩).binding →
        claimedBefore rs i (rs.get ⟨i, hi⟩).group v := by
  have hlen : (assignBindings rs).length = rs.length := assignGo_length rs rs _
  refine ⟨by omega, ?_⟩
  exact (assignBindings_spec rs i hi (by omega)).2 hauto

/-- Witness for C1 at the example of the specification: in
[explicit 2, auto, auto] the auto resources receive 0 and 1 (not 3 and 4),
and in particular 0 is already claimed before the second auto resource. -/
theorem computeBindingIndices_first_fit_witness :
    (assignBindings exC1).map Resource.binding = [2, 0, 1] ∧ claimedBefore exC1 2 0 0 := by
  refine ⟨by decide, ?_⟩
  obtain ⟨hi2, hg, hb0, hneg, hmin⟩ :=
    computeBindingIndices_first_fit exC1 2 (by decide) (by decide)
  have hbval : ((assignBindings exC1).get ⟨2, hi2⟩).binding = 1 := by rfl
  have := hmin 0 (by omega) (by rw [hbval]; omega)
  simpa using this

/-- C5 (amended): when the explicitly assigned bindings are pairwise distinct
within each group, the allocator output has no duplicate (group, binding)
pair. -/
theorem computeBindingIndices_unique (rs : List Resource)
    (hexp : ∀ i j : Fin rs.length, i ≠ j → (rs.get i).binding ≠ -1 →
      (rs.get j).binding ≠ -1 → (rs.get i).group = (rs.get j).group →
      (rs.get i).binding ≠ (rs.get j).binding) :
    ((computeBindingIndices rs).map (fun r => (r.group, r.binding))).Nodup := by
  unfold computeBindingIndices
  by_cases hempty : rs.isEmpty
  · rw [if_pos hempty]
    simp
  · rw [if_neg hempty]
    have hperm : ((assignBindings rs).mergeSort bindingLe).Perm (assignBindings rs) :=
      List.mergeSort_perm _ _
    have hperm2 := hperm.map (fun r => (r.group, r.binding))
    rw [hperm2.nodup_iff]
    have hlen : (assignBindings rs).length = rs.length := assignGo_length rs rs _
    rw [List.Nodup, List.pairwise_iff_get]
    intro i j hij heq
    have hmaplen : ((assignBindings rs).map (fun r => (r.group, r.binding))).length =
        (assignBindings rs).length := List.length_map _ _
    have hilt : (i : ℕ) < (assignBindings rs).length := by omega
    have hjlt : (j : ℕ) < (assignBindings rs).length := by omega
    have hir : (i : ℕ) < rs.length := by omega
    have hjr : (j : ℕ) < rs.length := by omega
    rw [List.get_map, List.get_map] at heq
    have hgi : ((assignBindings rs).get ⟨i, hilt⟩).group =
        ((assignBindings rs).get ⟨j, hjlt⟩).group := by
      have := congrArg Prod.fst heq
      simpa using this
    have hbi : ((assignBindings rs).get ⟨i, hilt⟩).binding =
        ((assignBindings rs).get ⟨j, hjlt⟩).binding := by
      have := congrArg Prod.snd heq
      simpa using this
    have hvij : (i : ℕ) ≠ (j : ℕ) := by
      intro hc
      exact absurd (Fin.ext hc) (ne_of_lt hij)
    have hspeci := assignBindings_spec rs i hir hilt
    have hspecj := assignBindings_spec rs j hjr hjlt
    by_cases hai : (rs.get ⟨i, hir⟩).binding = -1
    · obtain ⟨hgI, hb0I, hnegI, _⟩ := hspeci.2 hai
      by_cases haj : (rs.get ⟨j, hjr⟩).binding = -1
      · -- both auto: the earlier assignment is claimed before the later one
        obtain ⟨hgJ, hb0J, hnegJ, _⟩ := hspecj.2 haj
        apply hnegJ
        right
        refine ⟨i, ?_, hir, hilt, hai, ?_, hbi⟩
        · have : (i : ℕ) < (j : ℕ) := hij
          omega
        · rw [← hgJ, ← hgi, hgI]
      · -- i auto, j explicit: the explicit binding is in the used set
        have hoj := hspecj.1 haj
        apply hnegI
        left
        rw [bindingUsed, List.any_eq_true]
        refine ⟨rs.get ⟨j, hjr⟩, List.get_mem _ _ _, ?_⟩
        rw [Bool.and_eq_true, decide_eq_true_eq, decide_eq_true_eq]
        constructor
        · rw [← hoj]
          exact hbi.symm
        · rw [← hoj, ← hgi]
          exact hgI
    · have hoi := hspeci.1 hai
      by_cases haj : (rs.get ⟨j, hjr⟩).binding = -1
      · -- i explicit, j auto
        obtain ⟨hgJ, hb0J, hnegJ, _⟩ := hspecj.2 haj
        apply hnegJ
        left
        rw [bindingUsed, List.any_eq_true]
        refine ⟨rs.get ⟨i, hir⟩, List.get_mem _ _ _, ?_⟩
        rw [Bool.and_eq_true, decide_eq_true_eq, decide_eq_true_eq]
        constructor
        · rw [← hoi]
          exact hbi
        · rw [← hoi]
          exact hgi.trans hgJ
      · -- both explicit: contradicts pairwise-distinct explicit bindings
        have hoj := hspecj.1 haj
        apply hexp ⟨i, hir⟩ ⟨j, hjr⟩ (Fin.ne_of_val_ne hvij) hai haj
        · rw [← hoi, ← hoj]
          exact hgi
        · rw [← hoi, ← hoj]
          exact hbi

/-- Counterexample to C5 as stated: two resources declared with the same
explicit binding in the same group both survive allocation with the same
(group, binding) pair; the collision is only a logged diagnostic. -/
theorem computeBindingIndices_duplicate_survives :
    (computeBindingIndices exDup).map (fun r => (r.group, r.binding)) =
      [(0, 2), (0, 2)] ∧
    ¬ ((computeBindingIndices exDup).map (fun r => (r.group, r.binding))).Nodup := by
  have hsorted : (computeBindingIndices exDup) = assignBindings exDup := by
    unfold computeBindingIndices
    rw [if_neg (by decide)]
    exact List.mergeSort_of_sorted (by decide)
  rw [hsorted]
  constructor
  · rfl
  · decide

/-- Witness for the amended C5 at the first-fit example list. -/
theorem computeBindingIndices_unique_witness :
    ((computeBindingIndices exC1).map (fun r => (r.group, r.binding))).Nodup :=
  computeBindingIndices_unique exC1 (by decide)

/-! ## Lemmas about texture size validation -/

theorem validateSizeValues_ok_of_pos (t : String) (hnar : strIncludes t "array" = false) :
    ∀ (i : ℕ) (l : List ℚ), (∀ x ∈ l, 0 < x) → validateSizeValues t i l = .ok () := by
  intro i l
  induction l generalizing i with
  | nil => intro _; rfl
  | cons v rest ih =>
    intro hpos
    unfold validateSizeValues
    rw [if_neg (not_le.mpr (hpos v (List.mem_cons_self _ _)))]
    rw [if_neg (by simp [hnar])]
    exact ih (i + 1) (fun x hx => hpos x (List.mem_cons_of_mem _ hx))

theorem validateSizeValues_ok_pos {t : String} :
    ∀ {i : ℕ} {l : List ℚ}, validateSizeValues t i l = .ok () → ∀ x ∈ l, 0 < x := by
  intro i l
  induction l generalizing i with
  | nil => intro _ x hx; cases hx
  | cons v rest ih =>
    intro h x hx
    unfold validateSizeValues at h
    by_cases h1 : v ≤ 0
    · rw [if_pos h1] at h
      cases h
    · rw [if_neg h1] at h
      by_cases h2 : (strIncludes t "array" && decide (i = 2) && decide (v.den ≠ 1)) = true
      · rw [if_pos h2] at h
        cases h
      · rw [if_neg h2] at h
        rcases List.mem_cons.mp hx with heq | hmem
        · subst heq
          exact not_le.mp h1
        · exact ih h x hmem

theorem validateSizeValues_den {t : String} (hat : strIncludes t "array" = true) :
    ∀ {i : ℕ} {l : List ℚ}, validateSizeValues t i l = .ok () →
      ∀ (j : ℕ) (hj : j < l.length), i + j = 2 → (l.get ⟨j, hj⟩).den = 1 := by
  intro i l
  induction l generalizing i with
  | nil => intro _ j hj _; cases hj
  | cons v rest ih =>
    intro h j hj hij
    unfold validateSizeValues at h
    by_cases h1 : v ≤ 0
    · rw [if_pos h1] at h
      cases h
    · rw [if_neg h1] at h
      by_cases h2 : (strIncludes t "array" && decide (i = 2) && decide (v.den ≠ 1)) = true
      · rw [if_pos h2] at h
        cases h
      · rw [if_neg h2] at h
        cases j with
        | zero =>
          have hi2 : i = 2 := by omega
          have : v.den = 1 := by
            by_contra hc
            exact h2 (by simp [hat, hi2, hc])
          exact this
        | succ j2 =>
          have hj2 : j2 < rest.length := by simp at hj; omega
          have := ih h j2 hj2 (by omega)
          have hgs : ((v :: rest).get ⟨j2 + 1, hj⟩) = rest.get ⟨j2, hj2⟩ :=
            List.get_cons_succ
          rw [hgs]
          exact this

theorem padWithLast_mem {l : List ℚ} {n : ℕ} {x : ℚ} (hx : x ∈ padWithLast l n) :
    x ∈ l := by
  unfold padWithLast at hx
  cases hlast : l.getLast? with
  | none => rw [hlast] at hx; exact hx
  | some last =>
    rw [hlast] at hx
    rcases List.mem_append.mp hx with h | h
    · exact h
    · rw [List.eq_of_mem_replicate h]
      exact List.mem_of_getLast?_eq_some hlast

/-- C4: for a texture whose resolved size count differs from the
dimensionality its type requires, an array type fails with a dimension
error (the count must match exactly), while a non-array type given fewer
values pads by repeating the last value. -/
theorem validateAndResolveTextureSize_padding (sizeParams : List String)
    (textureType : String) (idx : ℕ) (w : List WildCard) (l : List ℚ)
    (hres : resolveTexSizes sizeParams w = .ok l) :
    (strIncludes textureType "array" = true →
      l.length ≠ getExpectedDimensions textureType →
      ∃ msg, validateAndResolveTextureSize sizeParams textureType idx w = .error msg) ∧
    (strIncludes textureType "array" = false →
      l.length < getExpectedDimensions textureType → l ≠ [] → (∀ x ∈ l, 0 < x) →
      validateAndResolveTextureSize sizeParams textureType idx w =
        .ok (padWithLast l (getExpectedDimensions textureType))) := by
  constructor
  · intro hat hne
    unfold validateAndResolveTextureSize
    rw [hres]
    dsimp only
    rcases Nat.lt_or_ge l.length (getExpectedDimensions textureType) with hlen | hlen
    · rw [if_neg (by omega), if_pos hlen, if_pos hat]
      exact ⟨_, rfl⟩
    · rw [if_pos (by omega)]
      exact ⟨_, rfl⟩
  · intro hnar hlen hne hpos
    unfold validateAndResolveTextureSize
    rw [hres]
    dsimp only
    rw [if_neg (by omega), if_pos hlen, if_neg (by rw [hnar]; exact Bool.false_ne_true)]
    obtain ⟨last, hlast⟩ := Option.isSome_iff_exists.mp (List.getLast?_isSome.mpr hne)
    rw [hlast]
    have hvalid : validateSizeValues textureType 0
        (padWithLast l (getExpectedDimensions textureType)) = .ok () :=
      validateSizeValues_ok_of_pos textureType hnar 0 _
        (fun x hx => hpos x (padWithLast_mem hx))
    dsimp only
    rw [hvalid]

/-- Witness for C4: a 2D non-array texture given one value 7 resolves to
[7, 7]; a texture array type given two values fails. -/
theorem validateAndResolveTextureSize_padding_witness :
    validateAndResolveTextureSize ["7"] "texture_2d" 0 [] = .ok [7, 7] ∧
    ∃ msg, validateAndResolveTextureSize ["7", "8"] "texture_2d_array" 0 [] =
      .error msg := by
  constructor
  · have h := (validateAndResolveTextureSize_padding ["7"] "texture_2d" 0 [] [7]
      (by with_unfolding_all rfl)).2 (by decide) (by decide) (by decide)
      (by intro x hx; simp at hx; rw [hx]; norm_num)
    rw [h]
    with_unfolding_all rfl
  · exact (validateAndResolveTextureSize_padding ["7", "8"] "texture_2d_array" 0 []
      [7, 8] (by with_unfolding_all rfl)).1 (by decide) (by decide)

theorem validateAndResolveTextureSize_ok_inv {sizeParams : List String}
    {textureType : String} {idx : ℕ} {w : List WildCard} {sizes : List ℚ}
    (h : validateAndResolveTextureSize sizeParams textureType idx w = .ok sizes) :
    validateSizeValues textureType 0 sizes = .ok () := by
  unfold validateAndResolveTextureSize at h
  cases hres : resolveTexSizes sizeParams w with
  | error e =>
    rw [hres] at h
    simp at h
  | ok resolved =>
    rw [hres] at h
    dsimp only at h
    by_cases h1 : getExpectedDimensions textureType < resolved.length
    · rw [if_pos h1] at h
      simp at h
    · rw [if_neg h1] at h
      by_cases h2 : resolved.length < getExpectedDimensions textureType
      · rw [if_pos h2] at h
        by_cases h3 : strIncludes textureType "array" = true
        · rw [if_pos h3] at h
          simp at h
        · rw [if_neg h3] at h
          cases hlast : resolved.getLast? with
          | none =>
            rw [hlast] at h
            simp at h
          | some last =>
            rw [hlast] at h
            dsimp only at h
            cases hval : validateSizeValues textureType 0
                (padWithLast resolved (getExpectedDimensions textureType)) with
            | error e2 =>
              rw [hval] at h
              simp at h
            | ok u =>
              rw [hval] at h
              dsimp only at h
              cases u
              cases h
              exact hval
      · rw [if_neg h2] at h
        dsimp only at h
        cases hval : validateSizeValues textureType 0 resolved with
        | error e2 =>
          rw [hval] at h
          simp at h
        | ok u =>
          rw [hval] at h
          dsimp only at h
          cases u
          cases h
          exact hval

/-- C7 (amended): every accepted texture size is positive in all dimensions;
integrality is enforced only for the third dimension of array-type textures;
non-integer values elsewhere are accepted. -/
theorem validateAndResolveTextureSize_positive (sizeParams : List String)
    (textureType : String) (idx : ℕ) (w : List WildCard) (sizes : List ℚ)
    (h : validateAndResolveTextureSize sizeParams textureType idx w = .ok sizes) :
    (∀ x ∈ sizes, 0 < x) ∧
    (strIncludes textureType "array" = true →
      ∀ h2 : 2 < sizes.length, (sizes.get ⟨2, h2⟩).den = 1) := by
  have hval := validateAndResolveTextureSize_ok_inv h
  constructor
  · exact validateSizeValues_ok_pos hval
  · intro hat h2
    exact validateSizeValues_den hat hval 2 h2 rfl

/-- Counterexample to C7 as stated: a 2D texture whose size expression
evaluates to the non-integer 3/2 is accepted, with size [3/2, 3/2]. -/
theorem validateAndResolveTextureSize_nonint_accepted :
    validateAndResolveTextureSize ["3/2"] "texture_2d" 0 [] = .ok [3 / 2, 3 / 2] ∧
    ((3 : ℚ) / 2).den ≠ 1 := by
  constructor
  · with_unfolding_all rfl
  · with_unfolding_all decide

/-- Witness for the amended C7 at a concrete accepted declaration. -/
theorem validateAndResolveTextureSize_positive_witness :
    validateAndResolveTextureSize ["4"] "texture_2d" 0 [] = .ok [4, 4] ∧ (0 : ℚ) < 4 := by
  refine ⟨by with_unfolding_all rfl, ?_⟩
  exact (validateAndResolveTextureSize_positive ["4"] "texture_2d" 0 [] [4, 4]
    (by with_unfolding_all rfl)).1 4 (by simp)

/-- C8 (amended): the group-before-binding order check is performed by the
texture, sampler and reference validators exactly when both sub-decorators
occur with @binding textually first; the buffer and uniform validators never
perform it. -/
theorem decoratorOrder_check (line : String) :
    (VErr.decoratorOrder ∈ validateTextureDeclaration line ↔ orderViolated line) ∧
    (VErr.decoratorOrder ∈ validateSamplerDeclaration line ↔ orderViolated line) ∧
    (VErr.decoratorOrder ∈ validateReferenceDeclaration line ↔ orderViolated line) ∧
    VErr.decoratorOrder ∉ validateBufferDeclaration line ∧
    VErr.decoratorOrder ∉ validateUniformDeclaration line := by
  unfold validateTextureDeclaration validateSamplerDeclaration
    validateReferenceDeclaration validateBufferDeclaration validateUniformDeclaration
  refine ⟨?_, ?_, ?_, ?_, ?_⟩ <;>
    · dsimp only
      split_ifs <;> simp_all

/-- Counterexample to C8 as stated: a buffer declaration line on which
@binding textually precedes @group passes buffer validation with no error at
all, so the declaration is not dropped. -/
theorem validateBufferDeclaration_no_order_check :
    validateBufferDeclaration exBufLine = [] ∧
    strIncludes exBufLine "@binding" = true ∧
    strIncludes exBufLine "@group" = true ∧
    strIndexOf exBufLine "@binding" < strIndexOf exBufLine "@group" := by
  refine ⟨by rfl, by rfl, by rfl, by decide⟩

/-- Witness for the amended C8: a texture line with @binding before @group
receives the order error. -/
theorem decoratorOrder_check_witness :
    VErr.decoratorOrder ∈ validateTextureDeclaration exTexLine :=
  ((decoratorOrder_check exTexLine).1).mpr (by decide)

/-- C6 (amended): only texture resources compute usedInBody by scanning the
function bodies for a whole-word occurrence of the identifier; buffer,
uniform, sampler and reference resources are built with usedInBody hard-coded
true. The concrete conjuncts exhibit the scan semantics: a whole-word
occurrence inside a function body is found, a partial-word prefix is not. -/
theorem usedInBody_semantics :
    (∀ (name type : String) (res : List ℚ) (fmt : String) (g b : Option ℕ)
       (idx : ℕ) (wl : List String) (code : String),
       (buildTextureObject name type res fmt g b idx wl code).usedInBody =
         checkResourceUsageInBody code name) ∧
    (∀ (name type : String) (size : ℚ) (acc : String) (st : Option ℕ)
       (g b : Option ℕ) (idx : ℕ) (wl : List String),
       (buildBufferObject name type size acc st g b idx wl).usedInBody = true) ∧
    (∀ (name type : String) (dfl : List (String × List ℚ)) (size : ℚ)
       (g b : Option ℕ) (idx : ℕ) (wl : List String),
       (buildUniformObject name type dfl size g b idx wl).usedInBody = true) ∧
    (∀ (name : String) (params : ResourceData) (g b : Option ℕ) (idx : ℕ)
       (wl : List String),
       (buildSamplerObject name params g b idx wl).usedInBody = true) ∧
    (∀ (name type node refName category : String) (acc : Option String)
       (g b : Option ℕ) (idx : ℕ),
       (buildReferenceObject name type node refName category acc g b idx).usedInBody =
         true) ∧
    checkResourceUsageInBody exUseCode "tex0" = true ∧
    checkResourceUsageInBody exUseCode "tex" = false := by
  refine ⟨fun _ _ _ _ _ _ _ _ _ => rfl, fun _ _ _ _ _ _ _ _ _ => rfl,
    fun _ _ _ _ _ _ _ _ => rfl, fun _ _ _ _ _ _ => rfl,
    fun _ _ _ _ _ _ _ _ _ => rfl, by rfl, by rfl⟩

/-- Counterexample to C6 as stated: a buffer resource parsed from source in
which no function body mentions the identifier still carries usedInBody
true (the buffer parser never consults the code). -/
theorem usedInBody_claim_false :
    (buildBufferObject "data" "array<f32>" 4 "read" none none none 0 []).usedInBody =
      true ∧
    checkResourceUsageInBody exNoUseCode "data" = false :=
  ⟨rfl, by rfl⟩

/-- C9: the wildcard expression info.resolution.y * 3 with the wildcard
resolution = [1920, 1080] evaluates to exactly [3240]: the swizzle .y selects
component index 1, the scalar is substituted textually and the surrounding
arithmetic evaluates to a single output component. -/
theorem evaluateWildcardExpression_example :
    evaluateWildcardExpression "info.resolution.y * 3"
      [{ name := "resolution", value := [1920, 1080] }] = .ok [3240] ∧
    getSwizzledValue [1920, 1080] ".y".data = [1080] := by
  constructor
  · with_unfolding_all rfl
  · with_unfolding_all rfl

/-- C10: an explicit @binding(0) collapses through the falsy-or default to
the unassigned marker -1 in the record construction of every resource kind, so
such a resource is auto-assigned; concretely, two resources both declared
@binding(0) come out of the allocator with bindings 0 and 1, the second
differing from its declared 0. -/
theorem binding_zero_coerced :
    (∀ (name type : String) (res : List ℚ) (fmt : String) (g : Option ℕ)
       (idx : ℕ) (wl : List String) (code : String),
       (buildTextureObject name type res fmt g (some 0) idx wl code).binding = -1) ∧
    (∀ (name type : String) (size : ℚ) (acc : String) (st : Option ℕ)
       (g : Option ℕ) (idx : ℕ) (wl : List String),
       (buildBufferObject name type size acc st g (some 0) idx wl).binding = -1) ∧
    (∀ (name type : String) (dfl : List (String × List ℚ)) (size : ℚ)
       (g : Option ℕ) (idx : ℕ) (wl : List String),
       (buildUniformObject name type dfl size g (some 0) idx wl).binding = -1) ∧
    (∀ (name : String) (params : ResourceData) (g : Option ℕ) (idx : ℕ)
       (wl : List String),
       (buildSamplerObject name params g (some 0) idx wl).binding = -1) ∧
    (∀ (name type node refName category : String) (acc : Option String)
       (g : Option ℕ) (idx : ℕ),
       (buildReferenceObject name type node refName category acc g (some 0) idx).binding =
         -1) ∧
    (computeBindingIndices exBind0).map Resource.binding = [0, 1] := by
  refine ⟨fun _ _ _ _ _ _ _ _ => rfl, fun _ _ _ _ _ _ _ _ => rfl,
    fun _ _ _ _ _ _ _ => rfl, fun _ _ _ _ _ => rfl, fun _ _ _ _ _ _ _ _ => rfl, ?_⟩
  have hsorted : computeBindingIndices exBind0 = assignBindings exBind0 := by
    unfold computeBindingIndices
    rw [if_neg (by decide)]
    exact List.mergeSort_of_sorted (by decide)
  rw [hsorted]
  with_unfolding_all rfl
